import Mathlib

/-!
Verification of the deterministic well-log anomaly-analysis pipeline
(ai-service/app: analysis.py, analysis_utils.py, analysis_insight.py).

Shallow embedding conventions:
* float arrays are lists; a possibly-missing (NaN) sample is an
  Option value (none = NaN); depths and raw inputs are exact rationals;
* quantities whose computation involves transcendental operations
  (square roots in standard deviations and correlations, the natural
  logarithm in per-interval confidence) live in the real numbers;
  everything else stays in the rationals;
* numpy sorts are modelled by insertion sort (stable, as is the
  behaviour observed on the list sizes the claims exercise);
* Python round(x, n) is modelled exactly as round-half-to-even of
  x * 10^n.
-/

namespace WellLog

/-- Machine epsilon guard used throughout the source (EPS = 1e-9). -/
def EPS : ℚ := 1 / 1000000000

/-- np.clip over the rationals: maximum with lo, then minimum with hi. -/
def clipQ (x lo hi : ℚ) : ℚ := min hi (max lo x)

/-- np.clip over the reals: maximum with lo, then minimum with hi. -/
noncomputable def clipR (x lo hi : ℝ) : ℝ := min hi (max lo x)

/-- Python round-half-to-even on a rational, to an integer. -/
def pyRound (q : ℚ) : ℤ :=
  if q - (⌊q⌋ : ℚ) > 1/2 then ⌊q⌋ + 1
  else if q - (⌊q⌋ : ℚ) < 1/2 then ⌊q⌋
  else if ⌊q⌋ % 2 = 0 then ⌊q⌋ else ⌊q⌋ + 1

/-- Python round(q, d): round-half-to-even at d decimal digits. -/
def roundTo (q : ℚ) (d : ℕ) : ℚ := (pyRound (q * 10 ^ d) : ℚ) / 10 ^ d

/-- Python round-half-to-even on a real, to an integer. -/
noncomputable def pyRoundR (x : ℝ) : ℤ :=
  if x - (⌊x⌋ : ℝ) > 1/2 then ⌊x⌋ + 1
  else if x - (⌊x⌋ : ℝ) < 1/2 then ⌊x⌋
  else if ⌊x⌋ % 2 = 0 then ⌊x⌋ else ⌊x⌋ + 1

/-- Python round(x, d) on a real. -/
noncomputable def roundToR (x : ℝ) (d : ℕ) : ℝ := (pyRoundR (x * 10 ^ d) : ℝ) / 10 ^ d

section RoundLemmas

theorem pyRound_le {q : ℚ} {B : ℤ} (h : q ≤ B) : pyRound q ≤ B := by
  unfold pyRound
  have hf : ⌊q⌋ ≤ B := by
    have := Int.floor_le_floor (α := ℚ) h
    simpa using this
  rcases eq_or_lt_of_le hf with hEq | hLt
  · have hfr : q - (⌊q⌋ : ℚ) ≤ 0 := by
      have : (⌊q⌋ : ℚ) = (B : ℚ) := by exact_mod_cast hEq
      rw [this]; exact sub_nonpos.mpr h
    have h1 : ¬ (q - (⌊q⌋ : ℚ) > 1/2) := by linarith
    have h2 : q - (⌊q⌋ : ℚ) < 1/2 := by linarith
    simp only [h1, if_false, h2, if_true]
    exact hf
  · split
    · omega
    · split
      · exact hf
      · split <;> omega

theorem le_pyRound {q : ℚ} {A : ℤ} (h : (A : ℚ) ≤ q) : A ≤ pyRound q := by
  unfold pyRound
  have hf : A ≤ ⌊q⌋ := Int.le_floor.mpr h
  split
  · omega
  · split
    · exact hf
    · split <;> omega

theorem roundTo_le {q b : ℚ} (d : ℕ) (hb : ∃ B : ℤ, (B : ℚ) = b * 10 ^ d)
    (h : q ≤ b) : roundTo q d ≤ b := by
  obtain ⟨B, hB⟩ := hb
  unfold roundTo
  have h10 : (0:ℚ) < 10 ^ d := by positivity
  have h1 : q * 10 ^ d ≤ (B : ℚ) := by
    rw [hB]; exact mul_le_mul_of_nonneg_right h (le_of_lt h10)
  have h2 : pyRound (q * 10 ^ d) ≤ B := pyRound_le h1
  have h3 : ((pyRound (q * 10 ^ d) : ℚ)) ≤ (B : ℚ) := by exact_mod_cast h2
  calc ((pyRound (q * 10 ^ d) : ℚ)) / 10 ^ d ≤ (B : ℚ) / 10 ^ d :=
        (div_le_div_iff_of_pos_right h10).mpr h3
    _ = b := by rw [hB]; field_simp

theorem le_roundTo {q a : ℚ} (d : ℕ) (hb : ∃ A : ℤ, (A : ℚ) = a * 10 ^ d)
    (h : a ≤ q) : a ≤ roundTo q d := by
  obtain ⟨A, hA⟩ := hb
  unfold roundTo
  have h10 : (0:ℚ) < 10 ^ d := by positivity
  have h1 : (A : ℚ) ≤ q * 10 ^ d := by
    rw [hA]; exact mul_le_mul_of_nonneg_right h (le_of_lt h10)
  have h2 : A ≤ pyRound (q * 10 ^ d) := le_pyRound h1
  have h3 : (A : ℚ) ≤ ((pyRound (q * 10 ^ d) : ℚ)) := by exact_mod_cast h2
  calc a = (A : ℚ) / 10 ^ d := by rw [hA]; field_simp
    _ ≤ ((pyRound (q * 10 ^ d) : ℚ)) / 10 ^ d := (div_le_div_iff_of_pos_right h10).mpr h3

theorem pyRoundR_le {x : ℝ} {B : ℤ} (h : x ≤ B) : pyRoundR x ≤ B := by
  unfold pyRoundR
  have hf : ⌊x⌋ ≤ B := by
    have := Int.floor_le_floor (α := ℝ) h
    simpa using this
  rcases eq_or_lt_of_le hf with hEq | hLt
  · have hcast : (⌊x⌋ : ℝ) = (B : ℝ) := by exact_mod_cast hEq
    have hfr : x - (⌊x⌋ : ℝ) ≤ 0 := by rw [hcast]; exact sub_nonpos.mpr h
    have h1 : ¬ (x - (⌊x⌋ : ℝ) > 1/2) := by linarith
    have h2 : x - (⌊x⌋ : ℝ) < 1/2 := by linarith
    simp only [h1, if_false, h2, if_true]
    exact hf
  · split
    · omega
    · split
      · exact hf
      · split <;> omega

theorem le_pyRoundR {x : ℝ} {A : ℤ} (h : (A : ℝ) ≤ x) : A ≤ pyRoundR x := by
  unfold pyRoundR
  have hf : A ≤ ⌊x⌋ := Int.le_floor.mpr h
  split
  · omega
  · split
    · exact hf
    · split <;> omega

theorem roundToR_le {x : ℝ} {b : ℝ} (d : ℕ) (hb : ∃ B : ℤ, (B : ℝ) = b * 10 ^ d)
    (h : x ≤ b) : roundToR x d ≤ b := by
  obtain ⟨B, hB⟩ := hb
  unfold roundToR
  have h10 : (0:ℝ) < 10 ^ d := by positivity
  have h1 : x * 10 ^ d ≤ (B : ℝ) := by
    rw [hB]; exact mul_le_mul_of_nonneg_right h (le_of_lt h10)
  have h2 : pyRoundR (x * 10 ^ d) ≤ B := pyRoundR_le h1
  have h3 : ((pyRoundR (x * 10 ^ d) : ℝ)) ≤ (B : ℝ) := by exact_mod_cast h2
  calc ((pyRoundR (x * 10 ^ d) : ℝ)) / 10 ^ d ≤ (B : ℝ) / 10 ^ d :=
        (div_le_div_iff_of_pos_right h10).mpr h3
    _ = b := by rw [hB]; field_simp

theorem le_roundToR {x a : ℝ} (d : ℕ) (hb : ∃ A : ℤ, (A : ℝ) = a * 10 ^ d)
    (h : a ≤ x) : a ≤ roundToR x d := by
  obtain ⟨A, hA⟩ := hb
  unfold roundToR
  have h10 : (0:ℝ) < 10 ^ d := by positivity
  have h1 : (A : ℝ) ≤ x * 10 ^ d := by
    rw [hA]; exact mul_le_mul_of_nonneg_right h (le_of_lt h10)
  have h2 : A ≤ pyRoundR (x * 10 ^ d) := le_pyRoundR h1
  have h3 : (A : ℝ) ≤ ((pyRoundR (x * 10 ^ d) : ℝ)) := by exact_mod_cast h2
  calc a = (A : ℝ) / 10 ^ d := by rw [hA]; field_simp
    _ ≤ ((pyRoundR (x * 10 ^ d) : ℝ)) / 10 ^ d := (div_le_div_iff_of_pos_right h10).mpr h3

theorem pyRoundR_sub_abs_le (x : ℝ) : |(pyRoundR x : ℝ) - x| ≤ 1/2 := by
  unfold pyRoundR
  have h0 : (⌊x⌋ : ℝ) ≤ x := Int.floor_le x
  have h1 : x < (⌊x⌋ : ℝ) + 1 := Int.lt_floor_add_one x
  split
  · rename_i hgt
    rw [abs_le]; push_cast; constructor <;> linarith
  · split
    · rename_i hlt
      rw [abs_le]; constructor <;> linarith
    · rename_i hge hnlt
      have hhalf : x - (⌊x⌋ : ℝ) = 1/2 := by linarith
      split <;> (rw [abs_le]; push_cast; constructor <;> linarith)

theorem roundToR_sub_abs_le (x : ℝ) (d : ℕ) : |roundToR x d - x| ≤ 1 / (2 * 10 ^ d) := by
  unfold roundToR
  have h10 : (0:ℝ) < 10 ^ d := by positivity
  have h := pyRoundR_sub_abs_le (x * 10 ^ d)
  have harg : ((pyRoundR (x * 10 ^ d) : ℝ)) / 10 ^ d - x
      = ((pyRoundR (x * 10 ^ d) : ℝ) - x * 10 ^ d) / 10 ^ d := by
    field_simp
    ring
  rw [harg, abs_div, abs_of_pos h10]
  rw [div_le_div_iff h10 (by positivity)]
  calc |(pyRoundR (x * 10 ^ d) : ℝ) - x * 10 ^ d| * (2 * 10 ^ d)
      ≤ (1/2) * (2 * 10 ^ d) := by
        exact mul_le_mul_of_nonneg_right h (by positivity)
    _ = 1 * 10 ^ d := by ring

end RoundLemmas

section OptionArith

/-- Pointwise lift of a binary operation to NaN-propagating optional values. -/
def o2 {α β γ : Type} (f : α → β → γ) : Option α → Option β → Option γ
  | some a, some b => some (f a b)
  | _, _ => none

/-- Lift of a unary operation to NaN-propagating optional values. -/
def o1 {α β : Type} (f : α → β) : Option α → Option β
  | some a => some (f a)
  | none => none

/-- The finite (non-NaN) samples of an optional-valued array. -/
def finiteVals {α : Type} (x : List (Option α)) : List α := x.filterMap id

/-- np.isfinite as a Boolean mask over optional values. -/
def isFin {α : Type} (v : Option α) : Bool := v.isSome

end OptionArith

section ListStats

/-- Ascending sort of a rational list (np.sort on the finite part). -/
def sortQ (v : List ℚ) : List ℚ := List.insertionSort (· ≤ ·) v

/-- Ascending sort of a real list, used where scores live in ℝ. -/
noncomputable def sortR (v : List ℝ) : List ℝ := List.insertionSort (· ≤ ·) v

/-- Median of a rational list (numpy convention: mean of the two middle
order statistics for even length); none when the list is empty. -/
def medianQ (v : List ℚ) : Option ℚ :=
  match v.length with
  | 0 => none
  | Nat.succ _ =>
    let s := sortQ v
    if v.length % 2 = 1 then some (s.getD (v.length / 2) 0)
    else some ((s.getD (v.length / 2 - 1) 0 + s.getD (v.length / 2) 0) / 2)

/-- np.nanmedian: median of the finite samples. -/
def nanmedian (x : List (Option ℚ)) : Option ℚ := medianQ (finiteVals x)

/-- Mean of a rational list; none when empty (numpy mean of [] is NaN). -/
def meanQ (v : List ℚ) : Option ℚ :=
  match v.length with
  | 0 => none
  | Nat.succ _ => some (v.sum / v.length)

/-- np.nanmean: mean of the finite samples. -/
def nanmean (x : List (Option ℚ)) : Option ℚ := meanQ (finiteVals x)

/-- Population variance (ddof = 0) of the finite samples; the square of
np.nanstd. none when there is no finite sample (np.nanstd = NaN). -/
def nanvarQ (x : List (Option ℚ)) : Option ℚ :=
  match nanmean x with
  | none => none
  | some m => meanQ ((finiteVals x).map (fun v => (v - m) ^ 2))

/-- np.nanstd: square root of the population variance of the finite part. -/
noncomputable def nanstd (x : List (Option ℚ)) : Option ℝ :=
  (nanvarQ x).map (fun v => Real.sqrt (v : ℝ))

/-- np.nanmax over optional values: none when no finite sample exists. -/
def nanmax (x : List (Option ℚ)) : Option ℚ :=
  match finiteVals x with
  | [] => none
  | a :: rest => some ((a :: rest).foldl max a)

/-- numpy linear-interpolation percentile of a rational list
(the list is assumed non-empty at every call site; 0 for []). -/
def percentileQ (v : List ℚ) (p : ℚ) : ℚ :=
  match v.length with
  | 0 => 0
  | Nat.succ m =>
    let s := sortQ v
    let h : ℚ := p * m / 100
    let lo : ℕ := (⌊h⌋).toNat
    let hi : ℕ := (⌈h⌉).toNat
    s.getD lo 0 + (h - lo) * (s.getD hi 0 - s.getD lo 0)

/-- numpy linear-interpolation percentile of a real list. -/
noncomputable def percentileR (v : List ℝ) (p : ℚ) : ℝ :=
  match v.length with
  | 0 => 0
  | Nat.succ m =>
    let s := sortR v
    let h : ℚ := p * m / 100
    let lo : ℕ := (⌊h⌋).toNat
    let hi : ℕ := (⌈h⌉).toNat
    s.getD lo 0 + ((h : ℝ) - (lo : ℝ)) * (s.getD hi 0 - s.getD lo 0)

/-- Mean of a real list with an explicit empty default, mirroring the
source idiom (float(np.mean(xs)) if xs else default). -/
noncomputable def meanRD (v : List ℝ) (default : ℝ) : ℝ :=
  match v.length with
  | 0 => default
  | Nat.succ _ => v.sum / v.length

/-- Mean of a rational list with an explicit empty default. -/
def meanQD (v : List ℚ) (default : ℚ) : ℚ :=
  match v.length with
  | 0 => default
  | Nat.succ _ => v.sum / v.length

end ListStats

section ListStatsLemmas

theorem meanRD_le {v : List ℝ} {b default : ℝ} (hd : default ≤ b)
    (h : ∀ y ∈ v, y ≤ b) : meanRD v default ≤ b := by
  unfold meanRD
  split
  · exact hd
  · rename_i n heq
    have hlen : 0 < v.length := by omega
    have hsum : v.sum ≤ v.length * b := by
      calc v.sum ≤ v.length • b := List.sum_le_card_nsmul v b h
        _ = v.length * b := by rw [nsmul_eq_mul]
    rw [div_le_iff (by exact_mod_cast hlen)]
    linarith [hsum]

theorem le_meanRD {v : List ℝ} {a default : ℝ} (hd : a ≤ default)
    (h : ∀ y ∈ v, a ≤ y) : a ≤ meanRD v default := by
  unfold meanRD
  split
  · exact hd
  · rename_i n heq
    have hlen : 0 < v.length := by omega
    have hsum : v.length * a ≤ v.sum := by
      calc (v.length : ℝ) * a = v.length • a := by rw [nsmul_eq_mul]
        _ ≤ v.sum := List.card_nsmul_le_sum v a h
    rw [le_div_iff (by exact_mod_cast hlen)]
    linarith [hsum]

theorem clipR_le_hi (x lo hi : ℝ) : clipR x lo hi ≤ hi := min_le_left _ _

theorem clipR_mem (x lo hi : ℝ) (h : lo ≤ hi) :
    lo ≤ clipR x lo hi ∧ clipR x lo hi ≤ hi := by
  refine ⟨?_, min_le_left _ _⟩
  unfold clipR
  exact le_min h (le_max_left _ _)

theorem clipR_le_of_le {x b lo hi : ℝ} (hlo : lo ≤ b) (hx : x ≤ b) :
    clipR x lo hi ≤ b := by
  unfold clipR
  exact le_trans (min_le_right _ _) (max_le hlo hx)

theorem clipQ_mem (x lo hi : ℚ) (h : lo ≤ hi) :
    lo ≤ clipQ x lo hi ∧ clipQ x lo hi ≤ hi := by
  refine ⟨?_, min_le_left _ _⟩
  unfold clipQ
  exact le_min h (le_max_left _ _)

theorem clipQ_le_of_le {x b lo hi : ℚ} (hlo : lo ≤ b) (hx : x ≤ b) :
    clipQ x lo hi ≤ b := by
  unfold clipQ
  exact le_trans (min_le_right _ _) (max_le hlo hx)

end ListStatsLemmas
section UtilsDefs

/-- Scale used by robust_z: the median of the input (np.nanmedian). -/
def rzMed (x : List (Option ℚ)) : Option ℚ := nanmedian x

/-- The median absolute deviation of the input (nanmedian of abs(x - med)). -/
def rzMad (x : List (Option ℚ)) : Option ℚ :=
  match nanmedian x with
  | none => none
  | some med => nanmedian (x.map (o1 (fun v => |v - med|)))

/-- The robust scale 1.4826 * MAD; none models a NaN (non-finite) scale. -/
def rzScale (x : List (Option ℚ)) : Option ℚ :=
  (rzMad x).map (fun mad => (14826/10000 : ℚ) * mad)

/-- Fallback branch of analysis_utils.robust_z: standardise by the plain
standard deviation, or return all zeros (np.zeros_like) when that is
degenerate too. -/
noncomputable def robust_z_std (x : List (Option ℚ)) : List (Option ℝ) :=
  match nanstd x, nanmean x with
  | some sd, some m =>
    if sd < ((EPS : ℚ) : ℝ) then x.map (fun _ => some (0:ℝ))
    else x.map (o1 (fun (v : ℚ) => ((v : ℝ) - (m : ℝ)) / (sd + ((EPS : ℚ) : ℝ))))
  | _, _ => x.map (fun _ => some (0:ℝ))

/-- analysis_utils.robust_z: (x - median) / (1.4826 * MAD + EPS), falling
back to (x - mean) / (std + EPS) when the scale is non-finite or below
EPS, and to an all-zero array when the std is degenerate as well. -/
noncomputable def robust_z (x : List (Option ℚ)) : List (Option ℝ) :=
  match rzScale x, nanmedian x with
  | some scale, some med =>
    if scale < EPS then robust_z_std x
    else x.map (o1 (fun v => (((v - med) / (scale + EPS) : ℚ) : ℝ)))
  | _, _ => robust_z_std x

/-- One output position of np.convolve(a, np.ones w, mode="same"): the
windowed sum of a around full-convolution index idx + (w-1)/2. -/
def convSameOnesAt (a : List ℚ) (w : ℕ) (idx : ℕ) : ℚ :=
  (((List.range w).map (fun t =>
    if t ≤ idx + (w - 1) / 2 then a.getD (idx + (w - 1) / 2 - t) 0 else 0)).sum)

/-- analysis_utils.rolling_mean: NaN-aware centered moving average via the
dual value/mask convolution; all-NaN result when the input is shorter
than the (at least 3 wide) window. -/
def rolling_mean (x : List (Option ℚ)) (w : ℤ) : List (Option ℚ) :=
  if x.length < (max 3 w).toNat then x.map (fun _ => none)
  else
    (List.range x.length).map (fun idx =>
      let num := convSameOnesAt (x.map (fun v => v.getD 0)) (max 3 w).toNat idx
      let den := convSameOnesAt (x.map (fun v => if isFin v then (1:ℚ) else 0)) (max 3 w).toNat idx
      if den > 0 then some (num / max den EPS) else none)

/-- Helper of contiguous_runs: walk the mask tracking the start of the
current run of true entries. -/
def runsAux : ℕ → Option ℕ → List Bool → List (ℕ × ℕ)
  | pos, some s, [] => [(s, pos - 1)]
  | _, none, [] => []
  | pos, none, false :: rest => runsAux (pos + 1) none rest
  | pos, none, true :: rest => runsAux (pos + 1) (some pos) rest
  | pos, some s, true :: rest => runsAux (pos + 1) (some s) rest
  | pos, some s, false :: rest => (s, pos - 1) :: runsAux (pos + 1) none rest

/-- analysis_utils.contiguous_runs: maximal index intervals of true mask
entries, in order. -/
def contiguous_runs (mask : List Bool) : List (ℕ × ℕ) := runsAux 0 none mask

/-- numpy gradient with unit spacing over NaN-propagating samples
(np.gradient(seg)): one-sided differences at the edges, centered
differences inside. -/
def gradientU (y : List (Option ℚ)) : List (Option ℚ) :=
  if y.length < 2 then y.map (fun _ => none)
  else
    (List.range y.length).map (fun i =>
      if i = 0 then o2 (fun a b => a - b) (y.getD 1 none) (y.getD 0 none)
      else if i = y.length - 1 then
        o2 (fun a b => a - b) (y.getD i none) (y.getD (i - 1) none)
      else o2 (fun a b => (a - b) / 2) (y.getD (i + 1) none) (y.getD (i - 1) none))

/-- numpy gradient with explicit (non-uniform) sample coordinates
(np.gradient(y, x)): second-order interior stencil, one-sided edges. -/
def gradientNU (y : List (Option ℚ)) (xs : List ℚ) : List (Option ℚ) :=
  if y.length < 2 then y.map (fun _ => none)
  else
    (List.range y.length).map (fun i =>
      if i = 0 then
        o2 (fun a b => (a - b) / (xs.getD 1 0 - xs.getD 0 0)) (y.getD 1 none) (y.getD 0 none)
      else if i = y.length - 1 then
        o2 (fun a b => (a - b) / (xs.getD i 0 - xs.getD (i - 1) 0))
          (y.getD i none) (y.getD (i - 1) none)
      else
        match y.getD (i - 1) none, y.getD i none, y.getD (i + 1) none with
        | some ym, some y0, some yp =>
          some ((((xs.getD i 0 - xs.getD (i - 1) 0)) ^ 2 * yp
            + ((xs.getD (i + 1) 0 - xs.getD i 0) ^ 2
              - (xs.getD i 0 - xs.getD (i - 1) 0) ^ 2) * y0
            - (xs.getD (i + 1) 0 - xs.getD i 0) ^ 2 * ym)
            / ((xs.getD i 0 - xs.getD (i - 1) 0) * (xs.getD (i + 1) 0 - xs.getD i 0)
              * ((xs.getD (i + 1) 0 - xs.getD i 0) + (xs.getD i 0 - xs.getD (i - 1) 0))))
        | _, _, _ => none)

/-- Shape labels assigned by analysis_utils.classify_interval. -/
inductive ShapeType
  | spike
  | drift
  | step_change
  | noisy_zone
deriving DecidableEq

/-- Comparison against an optional real where a NaN (none) compares
false, as in Python float comparisons with nan. -/
noncomputable def obGT (v : Option ℝ) (t : ℝ) : Bool :=
  match v with
  | some a => decide (t < a)
  | none => false

/-- analysis_utils.classify_interval on the clipped samples of one run. -/
noncomputable def classify_interval (x : List (Option ℚ)) (depths : List ℚ)
    (i j : ℕ) : ShapeType :=
  let seg := (x.drop i).take (j - i + 1)
  if seg.length < 4 then ShapeType.spike
  else
    let span : ℚ := max (depths.getD j 0 - depths.getD i 0) (1/1000000)
    let segf := seg.map (fun v => v.orElse (fun _ => nanmedian seg))
    let d1 := gradientU segf
    let d2 := gradientU d1
    let peakiness : Option ℚ :=
      nanmax (segf.map (fun v => o2 (fun a b => |a - b|) v (nanmedian segf)))
    let slope_strength : Option ℚ := nanmean (d1.map (o1 abs))
    let curvature : Option ℚ := nanmean (d2.map (o1 abs))
    let stdev : Option ℝ := (nanstd segf).map (fun s => s + ((EPS : ℚ) : ℝ))
    if decide (span < 12) && obGT (o2 (fun (p : ℚ) (s : ℝ) => (p : ℝ) / s) peakiness stdev) 2 then
      ShapeType.spike
    else if (match curvature, slope_strength with
        | some c, some s => decide (c < 12/100 * (s + EPS)) && decide (0 < s)
        | _, _ => false) then
      ShapeType.drift
    else
      let mid := segf.length / 2
      if (decide (1 < mid)) && (match nanmean (segf.take mid), nanmean (segf.drop mid), stdev with
          | some m1, some m2, some sd => decide (|(m2 : ℝ) - (m1 : ℝ)| / sd > 8/10)
          | _, _, _ => false) then
        ShapeType.step_change
      else ShapeType.noisy_zone

/-- A Run together with its representative score, supporting curves and
shape classification (the raw-interval dicts built in analyze). -/
structure RawInterval where
  i : ℕ
  j : ℕ
  score : ℝ
  curves : List String
  itype : ShapeType

/-- sorted(set(a) | set(b)) over curve names. -/
def sortedUnion (a b : List String) : List String :=
  List.insertionSort (fun s t => s ≤ t) ((a ++ b).dedup)

/-- Loop body of analysis_utils.merge_intervals: fold the start-sorted
raw intervals, merging each one into the previously kept interval
exactly when it is close (start within the previous end plus the gap)
and has the same shape type. -/
noncomputable def mergeLoop (gap : ℕ) (prev : RawInterval) :
    List RawInterval → List RawInterval
  | [] => [prev]
  | cur :: rest =>
    if cur.i ≤ prev.j + gap ∧ cur.itype = prev.itype then
      mergeLoop gap
        { prev with
          j := max prev.j cur.j
          score := max prev.score cur.score
          curves := sortedUnion prev.curves cur.curves } rest
    else prev :: mergeLoop gap cur rest

/-- analysis_utils.merge_intervals: sort raw intervals by start index and
merge adjacent same-shape intervals within the adaptive gap. -/
noncomputable def merge_intervals (raw : List RawInterval) (max_gap_idx : ℕ) :
    List RawInterval :=
  match List.insertionSort (fun a b => a.i ≤ b.i) raw with
  | [] => []
  | first :: rest => mergeLoop max_gap_idx first rest

/-- analysis_utils.interval_iou over depth intervals. -/
def interval_iou (a0 a1 b0 b1 : ℚ) : ℚ :=
  max 0 (min a1 b1 - max a0 b0) / (max a1 b1 - min a0 b0 + EPS)

/-- Stability labels attached by annotate_interval_stability; unknown
models the key being absent before annotation. -/
inductive Stability
  | stable
  | moderate
  | unstable
  | unknown
deriving DecidableEq

/-- Priority labels attached after consolidation; unset models the key
being absent before that pass. -/
inductive Priority
  | strong
  | elevated
  | watch
  | unset
deriving DecidableEq

/-- Probability buckets from analysis_utils.probability_bucket; unset
models the key being absent before labelling. -/
inductive Prob
  | Low
  | Medium
  | High
  | unset
deriving DecidableEq

/-- A consolidated finding dict as built in analyze. The curve tag is
kept as the sorted list of supporting curve names (joined with commas in
the source). -/
structure Finding where
  curve : List String
  fromDepth : ℚ
  toDepth : ℚ
  confidence : ℝ
  score : ℝ
  reason : ShapeType
  curvesSupporting : ℕ
  width : ℚ
  agreement : ℚ
  stability : Stability := Stability.unknown
  stabilityScore : ℚ := 0
  priority : Priority := Priority.unset
  probability : Prob := Prob.unset

/-- Loop of analysis_utils.nms_intervals carrying the kept findings. -/
def nmsAux (iou_thr : ℚ) : List Finding → List Finding → List Finding
  | [], kept => kept
  | f :: rest, kept =>
    if kept.all (fun k =>
        decide (interval_iou f.fromDepth f.toDepth k.fromDepth k.toDepth < iou_thr)) then
      nmsAux iou_thr rest (kept ++ [f])
    else nmsAux iou_thr rest kept

/-- analysis_utils.nms_intervals: greedy interval non-max suppression,
keeping a finding only when its IoU with every kept finding is below
the threshold. -/
def nms_intervals (findings : List Finding) (iou_thr : ℚ) : List Finding :=
  nmsAux iou_thr findings []

/-- Loop of analysis_utils.enforce_zone_separation carrying the kept
findings and their centers, stopping as soon as max_keep are kept. -/
def zoneSepAux (min_sep : ℚ) (max_keep : ℕ) :
    List Finding → List Finding → List ℚ → List Finding
  | [], out, _ => out
  | f :: rest, out, centers =>
    let c := (f.fromDepth + f.toDepth) / 2
    let keep := centers.all (fun cc => decide (min_sep ≤ |c - cc|))
    let out2 := if keep then out ++ [f] else out
    let centers2 := if keep then centers ++ [c] else centers
    if max_keep ≤ out2.length then out2 else zoneSepAux min_sep max_keep rest out2 centers2

/-- analysis_utils.enforce_zone_separation: keep a finding only when its
center is at least min_sep away from every kept center; cap the number
of kept findings at max_keep. -/
def enforce_zone_separation (findings : List Finding) (min_sep : ℚ) (max_keep : ℕ) :
    List Finding :=
  zoneSepAux min_sep max_keep findings [] []

/-- analysis_utils.clip_percentile: clip to the [p_lo, p_hi] percentile
range of the finite part (unchanged when fewer than 20 finite values),
also returning how many points moved and the total count. -/
def clip_percentile (x : List (Option ℚ)) (p_lo p_hi : ℚ) :
    List (Option ℚ) × ℕ × ℕ :=
  if (finiteVals x).length < 20 then (x, 0, x.length)
  else
    let lo := percentileQ (finiteVals x) p_lo
    let hi := percentileQ (finiteVals x) p_hi
    let clipped := x.map (o1 (fun v => clipQ v lo hi))
    let changed := (x.zip clipped).countP (fun pr =>
      match pr with
      | (some a, some b) => decide (|b - a| > EPS)
      | _ => false)
    (clipped, changed, x.length)

/-- analysis_utils._safe_corr: Pearson correlation over jointly finite
samples; 0 when fewer than 5 joint samples or a degenerate standard
deviation. The final isfinite guard of the source cannot fire here since
the denominator is already bounded away from zero. -/
noncomputable def safe_corr (a b : List (Option ℚ)) : ℝ :=
  let pairs := (a.zip b).filterMap (fun pr =>
    match pr with
    | (some x, some y) => some (x, y)
    | _ => none)
  if pairs.length < 5 then 0
  else
    let xs := pairs.map Prod.fst
    let ys := pairs.map Prod.snd
    let mx := meanQD xs 0
    let my := meanQD ys 0
    let vx := meanQD (xs.map (fun v => (v - mx) ^ 2)) 0
    let vy := meanQD (ys.map (fun v => (v - my) ^ 2)) 0
    if Real.sqrt (vx : ℝ) < ((EPS : ℚ) : ℝ) ∨ Real.sqrt (vy : ℝ) < ((EPS : ℚ) : ℝ) then 0
    else
      let cov := meanQD ((xs.zip ys).map (fun pr => (pr.1 - mx) * (pr.2 - my))) 0
      (cov : ℝ) / (Real.sqrt (vx : ℝ) * Real.sqrt (vy : ℝ))

/-- analysis_utils._slope: least-squares slope of values against depths
over the finite samples; 0 with fewer than 5 samples or a degenerate
spread of depths. -/
def slopeFit (depths : List ℚ) (values : List (Option ℚ)) : ℚ :=
  let pairs := (depths.zip values).filterMap (fun pr =>
    match pr.2 with
    | some v => some (pr.1, v)
    | none => none)
  if pairs.length < 5 then 0
  else
    let xs := pairs.map Prod.fst
    let ys := pairs.map Prod.snd
    let mx := meanQD xs 0
    let denom := (xs.map (fun v => (v - mx) ^ 2)).sum
    if denom < EPS then 0
    else
      let my := meanQD ys 0
      ((xs.zip ys).map (fun pr => (pr.1 - mx) * (pr.2 - my))).sum / denom

/-- Severity bands from analysis_utils._band. -/
inductive Band
  | LOW
  | MODERATE
  | HIGH
  | CRITICAL
deriving DecidableEq

/-- analysis_utils._band with thresholds t1 < t2 < t3. -/
noncomputable def bandOf (value t1 t2 t3 : ℝ) : Band :=
  if t3 ≤ value then Band.CRITICAL
  else if t2 ≤ value then Band.HIGH
  else if t1 ≤ value then Band.MODERATE
  else Band.LOW

/-- analysis_utils.probability_bucket on a finding score and confidence. -/
noncomputable def probability_bucket (score conf : ℝ) : Prob :=
  if 8/10 ≤ conf ∧ 85/10 ≤ score then Prob.High
  else if 64/100 ≤ conf ∧ 55/10 ≤ score then Prob.Medium
  else Prob.Low

/-- Data-quality bands of compute_data_quality. -/
inductive QBand
  | HIGH
  | MEDIUM
  | LOW
deriving DecidableEq

/-- The numeric fields of the data-quality record (warning strings are
not modelled). -/
structure DataQuality where
  nullFraction : ℚ
  nullPercent : ℚ
  effectiveRows : ℕ
  depthResolutionMedian : Option ℚ
  clippedFraction : ℚ
  clippedPercent : ℚ
  qualityBand : QBand
deriving DecidableEq

/-- Consecutive positive depth steps (np.diff filtered to finite positive
values; depths are always finite here). -/
def posDiffs (depths : List ℚ) : List ℚ :=
  ((depths.zip depths.tail).map (fun pr => pr.2 - pr.1)).filter (fun d => 0 < d)

/-- analysis_utils.compute_data_quality (numeric fields). -/
def compute_data_quality (data : List (String × List (Option ℚ))) (depths : List ℚ)
    (clipped_points_total raw_points_total : ℕ) : DataQuality :=
  match data with
  | [] =>
    { nullFraction := 1, nullPercent := 100, effectiveRows := 0
      depthResolutionMedian := none, clippedFraction := 0, clippedPercent := 0
      qualityBand := QBand.LOW }
  | _ :: _ =>
    let valid_rates : List ℚ := data.map (fun pr =>
      if pr.2.length = 0 then 0 else ((pr.2.countP isFin : ℚ) / pr.2.length))
    let mean_valid := meanQD valid_rates 0
    let null_frac := clipQ (1 - mean_valid) 0 1
    let effective_rows := (List.range depths.length).countP (fun idx =>
      data.any (fun pr => isFin (pr.2.getD idx none)))
    let depth_res := medianQ (posDiffs depths)
    let clipped_frac := if 0 < raw_points_total then
      clipQ ((clipped_points_total : ℚ) / raw_points_total) 0 1 else 0
    let quality_score := 45/100 * (1 - null_frac) + 30/100 * (1 - clipped_frac)
      + 25/100 * clipQ ((effective_rows : ℚ) / 2000) 0 1
    { nullFraction := roundTo null_frac 4
      nullPercent := roundTo (null_frac * 100) 2
      effectiveRows := effective_rows
      depthResolutionMedian := depth_res.map (fun d => roundTo d 4)
      clippedFraction := roundTo clipped_frac 4
      clippedPercent := roundTo (clipped_frac * 100) 2
      qualityBand := if 72/100 ≤ quality_score then QBand.HIGH
        else if 48/100 ≤ quality_score then QBand.MEDIUM else QBand.LOW }

/-- analysis_utils.annotate_interval_stability: attach a composite
stability score and label, counting neighbors among the centers of the
full pre-suppression ranking. -/
def annotate_interval_stability (findings all_findings : List Finding)
    (center_tolerance : ℚ) : List Finding :=
  match findings with
  | [] => []
  | _ :: _ =>
    let all_centers := all_findings.map (fun f => (f.fromDepth + f.toDepth) / 2)
    findings.map (fun f =>
      let c := (f.fromDepth + f.toDepth) / 2
      let width := max 0 (f.toDepth - f.fromDepth)
      let neighbors := all_centers.countP (fun ac => decide (|c - ac| ≤ center_tolerance))
      let st := clipQ (35/100 * min 1 ((neighbors : ℚ) / 4) + 30/100 * min 1 (width / 18)
        + 25/100 * min 1 f.agreement + 10/100 * min 1 ((f.curvesSupporting : ℚ) / 2)) 0 1
      { f with
        stability := if 3/4 ≤ st then Stability.stable
          else if 13/25 ≤ st then Stability.moderate else Stability.unstable
        stabilityScore := roundTo st 3 })

end UtilsDefs

section AnalyzeDefs

/-- An input row: a depth and per-curve optional values (schemas.Row;
a missing key and an explicit null both read as NaN). -/
structure Row where
  depth : ℚ
  values : List (String × Option ℚ)
deriving DecidableEq

/-- rows[i].values.get(c, nan) followed by float(): an absent key or an
explicit null is a NaN sample. -/
def rowVal (r : Row) (c : String) : Option ℚ :=
  (r.values.lookup c).getD none

/-- The canonical depth grid and aligned per-curve arrays, built by the
preparation step of analyze. -/
structure Prep where
  depths : List ℚ
  data : List (String × List (Option ℚ))
deriving DecidableEq

/-- np.argsort over row depths, modelled as a stable sort of the rows
(numpy uses insertion sort on the array sizes exercised here, which is
stable; on distinct depths every sort agrees). -/
def sortRows (rows : List Row) : List Row :=
  List.insertionSort (fun a b => a.depth ≤ b.depth) rows

/-- Walk of the duplicate-removal mask: an element survives exactly when
its depth strictly exceeds the depth of the preceding element. -/
def dedupAux : ℚ → List Row → List Row
  | _, [] => []
  | prev, r :: rest =>
    if prev < r.depth then r :: dedupAux r.depth rest else dedupAux r.depth rest

/-- The duplicate/non-increasing depth removal of analyze (the first
element is always kept). -/
def dedupRows : List Row → List Row
  | [] => []
  | r :: rest => r :: dedupAux r.depth rest

/-- Sort by depth, drop duplicate depths keeping the first occurrence,
and align one array per requested curve. -/
def prepare (rows : List Row) (curves : List String) : Prep :=
  { depths := (dedupRows (sortRows rows)).map Row.depth
    data := curves.map (fun c => (c, (dedupRows (sortRows rows)).map (fun r => rowVal r c))) }

/-- Median positive depth step, defaulting to 1.0 when no positive step
exists. -/
def medianStep (depths : List ℚ) : ℚ := (medianQ (posDiffs depths)).getD 1

/-- Adaptive smoothing window: clamp(9, 121, round(18 / max(step, 1e-6))). -/
def smoothWinOf (step : ℚ) : ℕ :=
  (max 9 (min 121 (pyRound (18 / max step (1/1000000))))).toNat

/-- Adaptive minimum run length: max(4, round(6 / max(step, 1e-6))). -/
def minRunOf (step : ℚ) : ℕ :=
  (max 4 (pyRound (6 / max step (1/1000000)))).toNat

/-- Adaptive merge gap: max(2, round(4 / max(step, 1e-6))). -/
def gapMergeOf (step : ℚ) : ℕ :=
  (max 2 (pyRound (4 / max step (1/1000000)))).toNat

/-- Fraction of finite samples of a curve array (np.mean(np.isfinite x);
0 for the empty array, which no caller reaches). -/
def finiteFrac (x : List (Option ℚ)) : ℚ :=
  if x.length = 0 then 0 else ((x.countP isFin : ℚ) / x.length)

/-- The aligned array of one curve (data[c]). -/
def dataOf (P : Prep) (c : String) : List (Option ℚ) := (P.data.lookup c).getD []

/-- The curves that are not skipped as too sparse (finite fraction at
least 30 percent). -/
def activeCurves (P : Prep) (curves : List String) : List String :=
  curves.filter (fun c => !(decide (finiteFrac (dataOf P c) < 3/10)))

/-- The percentile-clipped samples of one curve (first component of
clip_percentile). -/
def clippedOf (P : Prep) (c : String) : List (Option ℚ) :=
  (clip_percentile (dataOf P c) 1 99).1

/-- The composite per-sample anomaly score of one curve: 0.62 times the
robust z of the residual against the rolling mean plus 0.38 times the
robust z of the local slope, with non-finite entries replaced by 0. -/
noncomputable def scoresOf (P : Prep) (c : String) : List ℝ :=
  let xc := clippedOf P c
  let smooth := rolling_mean xc (smoothWinOf (medianStep P.depths))
  let resid := List.zipWith (o2 (fun a b => a - b)) xc smooth
  let z_level := (robust_z resid).map (o1 (fun v => |v|))
  let filled := xc.map (fun v => v.orElse (fun _ => nanmedian xc))
  let dx := gradientNU filled P.depths
  let z_slope := (robust_z dx).map (o1 (fun v => |v|))
  let score := List.zipWith (o2 (fun (a : ℝ) (b : ℝ) => 62/100 * a + 38/100 * b)) z_level z_slope
  score.map (fun v => v.getD 0)

/-- The adaptive threshold of one curve: max(2.6, 92nd percentile of its
scores). -/
noncomputable def thrOf (P : Prep) (c : String) : ℝ :=
  max (26/10 : ℝ) (percentileR (scoresOf P c) 92)

/-- The per-sample anomaly mask of one curve (score at or above the
threshold). -/
noncomputable def maskOf (P : Prep) (c : String) : List Bool :=
  (scoresOf P c).map (fun s => decide (thrOf P c ≤ s))

/-- The runs of one curve surviving the minimum-run-length filter. -/
noncomputable def runsOf (P : Prep) (c : String) : List (ℕ × ℕ) :=
  (contiguous_runs (maskOf P c)).filter
    (fun pr => decide (minRunOf (medianStep P.depths) ≤ pr.2 - pr.1 + 1))

/-- The raw intervals contributed by one curve: each surviving run with
its mean score and shape classification. -/
noncomputable def rawIntervalsOf (P : Prep) (c : String) : List RawInterval :=
  (runsOf P c).map (fun pr =>
    { i := pr.1
      j := pr.2
      score := meanRD (((scoresOf P c).drop pr.1).take (pr.2 - pr.1 + 1)) 0
      curves := [c]
      itype := classify_interval (clippedOf P c) P.depths pr.1 pr.2 })

/-- Normalised per-curve anomaly intensity: clip(95th percentile / 7). -/
noncomputable def pcOf (P : Prep) (c : String) : ℝ :=
  clipR (percentileR (scoresOf P c) 95 / 7) 0 1

/-- The cross-curve agreement signal: per-sample fraction of flagged
active curves when at least two curves contribute, all zeros otherwise. -/
noncomputable def agreementMask (P : Prep) (curves : List String) : List ℚ :=
  let masks := (activeCurves P curves).map (fun c => maskOf P c)
  if masks.length < 2 then List.replicate P.depths.length 0
  else (List.range P.depths.length).map (fun idx =>
    ((masks.map (fun m => if m.getD idx false then (1:ℚ) else 0)).sum) / masks.length)

/-- Build one finding dict from a merged interval: agreement-boosted
score, log-shaped confidence, depth bounds and supporting curves. -/
noncomputable def findingOfInterval (P : Prep) (curves : List String)
    (it : RawInterval) : Finding :=
  let agree := agreementMask P curves
  let avg_agree : ℚ := if agree.length = 0 then 0
    else meanQD ((agree.drop it.i).take (it.j - it.i + 1)) 0
  let boosted : ℝ := it.score * (1 + 35/100 * (avg_agree : ℝ))
  let int_conf : ℝ := clipR
    (35/100 + 10/100 * Real.log (1 + max boosted 0) + 18/100 * (avg_agree : ℝ))
    (35/100) (95/100)
  let tag := List.insertionSort (fun a b => a ≤ b) it.curves
  { curve := tag
    fromDepth := P.depths.getD it.i 0
    toDepth := P.depths.getD it.j 0
    confidence := roundToR int_conf 3
    score := roundToR boosted 3
    reason := it.itype
    curvesSupporting := (tag.filter (fun s => s.trim != "")).length
    width := roundTo (P.depths.getD it.j 0 - P.depths.getD it.i 0) 3
    agreement := roundTo avg_agree 3 }

/-- The full ranking of merged findings by descending stored score
(all_ranked_findings in analyze). -/
noncomputable def rankedFindings (P : Prep) (curves : List String) : List Finding :=
  let raw := (activeCurves P curves).foldr (fun c acc => rawIntervalsOf P c ++ acc) []
  let merged := merge_intervals raw (gapMergeOf (medianStep P.depths))
  List.insertionSort (fun a b => b.score ≤ a.score) (merged.map (findingOfInterval P curves))

/-- The consolidated findings of the deterministic output: non-max
suppression, zone separation, stability annotation and priority plus
probability labelling. -/
noncomputable def consolidatedFindings (P : Prep) (curves : List String) : List Finding :=
  let ranked := rankedFindings P curves
  let kept := enforce_zone_separation (nms_intervals ranked (55/100)) 22 6
  let annotated := annotate_interval_stability kept ranked 10
  annotated.map (fun f =>
    { f with
      priority := if (5:ℝ) < f.score then Priority.strong
        else if (3:ℝ) ≤ f.score then Priority.elevated else Priority.watch
      probability := probability_bucket f.score f.confidence })

/-- The numeric fields of the deterministic output bundle. -/
structure DetOut where
  eventCount : ℕ
  eventDensityPer1000ft : ℚ
  anomalyScore : ℝ
  confidence : ℚ
  detectionConfidence : ℚ
  severityConfidence : ℝ
  severityBand : Band
  dataQuality : DataQuality
  intervalFindings : List Finding

/-- Fluid labels of the insight synthesizer. -/
inductive FluidLabel
  | oil_or_gas
  | mixed
  | gas_show
  | weak
deriving DecidableEq

/-- Risk labels of the insight risk profile. -/
inductive Risk
  | Low
  | Medium
  | High
deriving DecidableEq

/-- Hydrocarbon-potential labels of the four zones. -/
inductive ZoneLabel
  | high_potential
  | moderate_potential
  | low_potential
deriving DecidableEq

/-- One of the up-to-six shows of the insight bundle. -/
structure ShowRec where
  fromDepth : ℚ
  toDepth : ℚ
  probability : Prob
  stability : Stability
  score : ℝ
  priority : Priority

/-- One of the four equal zones of the insight bundle; notes are kept as
the list of local primary/secondary means. -/
structure Zone where
  fromDepth : ℚ
  toDepth : ℚ
  label : ZoneLabel
  localMeans : List (Option ℚ)

/-- The derived indices of the insight bundle. -/
structure Indices where
  wetnessIndexWh : ℝ
  balanceBh : Option ℚ
  characterCh : Option ℚ

/-- The numeric fields of the insight output bundle. -/
structure Insight where
  well : String
  fromDepth : ℚ
  toDepth : ℚ
  analyzedCurves : List String
  indices : Indices
  fluidLabel : FluidLabel
  fluidConfidence : ℝ
  shows : List ShowRec
  sealRisk : Risk
  satRisk : Risk
  zones : List Zone

/-- analysis_insight.build_insight (numeric fields): wetness, balance and
character indices from the first two caller-ordered curves, fluid label
and confidence, shows, risk profile and four fixed zones. The balance
ratio bh = (mean1 + EPS) / (mean2 + EPS) divides Python floats in the
source and raises ZeroDivisionError when the secondary mean is exactly
-EPS; this embedding keeps that division total, so the returned record
is the value the source produces exactly when it does not raise, and
the raising condition is captured separately by balanceDenominatorZero
and analyzeRaisesZeroDiv. -/
noncomputable def build_insight (well_id : String) (from_depth to_depth : ℚ)
    (curves : List String) (depths : List ℚ)
    (data : List (String × List (Option ℚ))) (findings : List Finding)
    (anomaly_score : ℝ) (detection_conf : ℚ) (severity_conf : ℝ)
    (severity_band : Band) : Insight :=
  let c1 : Option String := curves[0]?
  let c2 : Option String := curves[1]?
  let arr1 : List (Option ℚ) := match c1 with
    | some c => (data.lookup c).getD []
    | none => []
  let arr2 : List (Option ℚ) := match c2 with
    | some c => (data.lookup c).getD []
    | none => []
  let mean1 := nanmean arr1
  let mean2 := nanmean arr2
  let slope1 : ℚ := if arr1.length ≠ 0 then slopeFit depths arr1 else 0
  let slope2 : ℚ := if arr2.length ≠ 0 then slopeFit depths arr2 else 0
  let corr12 : ℝ := if arr1.length ≠ 0 ∧ arr2.length ≠ 0 then safe_corr arr1 arr2 else 0
  let bh : Option ℚ := o2 (fun m1 m2 => (m1 + EPS) / (m2 + EPS)) mean1 mean2
  let wh : ℝ := clipR
    (45/100 * anomaly_score + 35/100 * max corr12 0 + 20/100 * severity_conf) 0 1
  let ch : Option ℚ := if arr1.length ≠ 0 ∧ arr2.length ≠ 0 then
      some (clipQ (|slope2| / (|slope1| + EPS)) 0 5) else none
  let fluid_conf : ℝ := clipR
    (45/100 * severity_conf + 30/100 * max corr12 0 + 25/100 * anomaly_score) 0 1
  let fluid : FluidLabel :=
    if 72/100 ≤ fluid_conf ∧ (1/2 : ℝ) ≤ corr12 then FluidLabel.oil_or_gas
    else if 58/100 ≤ fluid_conf then FluidLabel.mixed
    else if 22/100 ≤ anomaly_score then FluidLabel.gas_show
    else FluidLabel.weak
  let shows := (findings.take 6).map (fun f =>
    ({ fromDepth := f.fromDepth
       toDepth := f.toDepth
       probability := (match f.probability with
         | Prob.unset => probability_bucket f.score f.confidence
         | p => p)
       stability := f.stability
       score := f.score
       priority := f.priority } : ShowRec))
  let seal_r := if anomaly_score < 1/4 then Risk.Low
    else if anomaly_score < 1/2 then Risk.Medium else Risk.High
  let sat_r := if severity_conf < 45/100 then Risk.Low
    else if severity_conf < 3/4 then Risk.Medium else Risk.High
  let zones := (List.range 4).map (fun i =>
    let z0 := from_depth + (to_depth - from_depth) * i / 4
    let z1 := from_depth + (to_depth - from_depth) * (i + 1) / 4
    let maskIdx := (List.range depths.length).filter
      (fun k => decide (z0 ≤ depths.getD k 0) && decide (depths.getD k 0 ≤ z1))
    let local_vals := (curves.take 2).filterMap (fun c =>
      match data.lookup c with
      | some arr =>
        if arr.length = depths.length then
          some (if maskIdx.length ≠ 0 then nanmean (maskIdx.map (fun k => arr.getD k none))
            else none)
        else none
      | none => none)
    let local_anom : ℚ := if maskIdx.length ≠ 0 then
        ((findings.countP (fun f =>
          !(decide (f.toDepth < z0) || decide (z1 < f.fromDepth)))) : ℚ)
          / (max 1 findings.length : ℕ)
      else 0
    ({ fromDepth := roundTo z0 3
       toDepth := roundTo z1 3
       label := if 3/5 ≤ local_anom then ZoneLabel.high_potential
         else if 3/10 ≤ local_anom then ZoneLabel.moderate_potential
         else ZoneLabel.low_potential
       localMeans := local_vals } : Zone))
  { well := well_id
    fromDepth := roundTo from_depth 3
    toDepth := roundTo to_depth 3
    analyzedCurves := curves
    indices :=
      { wetnessIndexWh := roundToR wh 3
        balanceBh := bh.map (fun v => roundTo v 3)
        characterCh := ch.map (fun v => roundTo v 3) }
    fluidLabel := fluid
    fluidConfidence := roundToR fluid_conf 3
    shows := shows
    sealRisk := seal_r
    satRisk := sat_r
    zones := zones }

/-- The insufficient-data bundle returned by analyze when fewer than 20
rows survive preparation (a documented policy branch, not an error). -/
noncomputable def lowDataBundle (P : Prep) (curves : List String)
    (from_depth to_depth : ℚ) (well_id : String) : DetOut × Insight :=
  let anomaly_score : ℝ := 0
  let detection_conf : ℚ := 1/4
  let severity_conf : ℝ := 1/5
  let severity_band := bandOf anomaly_score (1/4) (1/2) (3/4)
  let anomaly_final : ℝ := min anomaly_score (49/100)
  let severity_final : ℝ := min severity_conf (55/100)
  let dq := compute_data_quality P.data P.depths 0
    (max 1 (P.depths.length * max 1 curves.length))
  ({ eventCount := 0
     eventDensityPer1000ft := roundTo 0 3
     anomalyScore := roundToR anomaly_final 3
     confidence := roundTo detection_conf 3
     detectionConfidence := roundTo detection_conf 3
     severityConfidence := roundToR severity_final 3
     severityBand := severity_band
     dataQuality := dq
     intervalFindings := [] },
   build_insight well_id from_depth to_depth curves P.depths P.data []
     anomaly_final detection_conf severity_final severity_band)

/-- Mean of the cross-curve agreement signal (0.0 when it is empty). -/
noncomputable def agreeGlobal (P : Prep) (curves : List String) : ℚ :=
  if (agreementMask P curves).length = 0 then 0 else meanQD (agreementMask P curves) 0

/-- The global anomaly score before the consistency guard:
clip(0.78 * mean(per-curve proxies) + 0.22 * mean(agreement), 0, 1). -/
noncomputable def anomalyRaw (P : Prep) (curves : List String) : ℝ :=
  clipR (78/100 * meanRD ((activeCurves P curves).map (pcOf P)) 0
    + 22/100 * (agreeGlobal P curves : ℝ)) 0 1

/-- Mean finite fraction over all requested curves (data_quality_scalar). -/
def dqScalar (P : Prep) : ℚ :=
  if P.data.length = 0 then 0 else meanQD (P.data.map (fun pr => finiteFrac pr.2)) 0

/-- Mean capped finding width over 20 (interval_stability_scalar),
defaulting to 0.2 with no findings. -/
noncomputable def intervalScalar (P : Prep) (curves : List String) : ℚ :=
  if (consolidatedFindings P curves).length = 0 then 1/5
  else meanQD ((consolidatedFindings P curves).map
    (fun f => min 1 ((f.toDepth - f.fromDepth) / 20))) 0

/-- Mean capped finding score over 6 (strength), defaulting to 0.2 with
no findings. -/
noncomputable def strengthScalar (P : Prep) (curves : List String) : ℝ :=
  if (consolidatedFindings P curves).length = 0 then 1/5
  else meanRD ((consolidatedFindings P curves).map (fun f => min 1 (f.score / 6))) 0

/-- detection_conf = clip(0.40 * dq + 0.30 * interval + 0.30 * agreement,
0.25, 0.95). -/
noncomputable def detectionConfOf (P : Prep) (curves : List String) : ℚ :=
  clipQ (40/100 * dqScalar P + 30/100 * intervalScalar P curves
    + 30/100 * agreeGlobal P curves) (1/4) (95/100)

/-- severity_conf = clip(0.55 * anomaly + 0.45 * strength, 0.20, 0.92). -/
noncomputable def severityConfOf (P : Prep) (curves : List String) : ℝ :=
  clipR (55/100 * anomalyRaw P curves + 45/100 * strengthScalar P curves) (1/5) (92/100)

/-- The anomaly score after the zero-findings consistency guard. -/
noncomputable def anomalyFinal (P : Prep) (curves : List String) : ℝ :=
  if (consolidatedFindings P curves).length = 0 then min (anomalyRaw P curves) (49/100)
  else anomalyRaw P curves

/-- The severity confidence after the zero-findings consistency guard. -/
noncomputable def severityFinal (P : Prep) (curves : List String) : ℝ :=
  if (consolidatedFindings P curves).length = 0 then min (severityConfOf P curves) (55/100)
  else severityConfOf P curves

/-- The main branch of analyze: detector, agreement, consolidation,
global aggregation with the zero-findings consistency guard, data
quality and both output bundles. -/
noncomputable def mainBundle (P : Prep) (curves : List String)
    (from_depth to_depth : ℚ) (well_id : String) : DetOut × Insight :=
  let range_width : ℚ := max (to_depth - from_depth) EPS
  let findings := consolidatedFindings P curves
  let severity_band := bandOf (anomalyRaw P curves) (1/4) (1/2) (3/4)
  let event_density : ℚ := findings.length / (range_width / 1000)
  let clippedTotal := ((activeCurves P curves).map
    (fun c => (clip_percentile (dataOf P c) 1 99).2.1)).sum
  let dq := compute_data_quality P.data P.depths clippedTotal
    (max 1 (curves.length * P.depths.length))
  ({ eventCount := findings.length
     eventDensityPer1000ft := roundTo event_density 3
     anomalyScore := roundToR (anomalyFinal P curves) 3
     confidence := roundTo (detectionConfOf P curves) 3
     detectionConfidence := roundTo (detectionConfOf P curves) 3
     severityConfidence := roundToR (severityFinal P curves) 3
     severityBand := severity_band
     dataQuality := dq
     intervalFindings := findings },
   build_insight well_id from_depth to_depth curves P.depths P.data findings
     (anomalyFinal P curves) (detectionConfOf P curves) (severityFinal P curves)
     severity_band)

/-- analyze on the prepared state: the insufficient-data short circuit
below 20 usable rows, the full pipeline otherwise. -/
noncomputable def analyzeOnPrep (P : Prep) (curves : List String)
    (from_depth to_depth : ℚ) (well_id : String) : DetOut × Insight :=
  if P.depths.length < 20 then lowDataBundle P curves from_depth to_depth well_id
  else mainBundle P curves from_depth to_depth well_id

/-- analysis.analyze: preparation followed by the branch dispatch. -/
noncomputable def analyze (rows : List Row) (curves : List String)
    (from_depth to_depth : ℚ) (well_id : String) : DetOut × Insight :=
  analyzeOnPrep (prepare rows curves) curves from_depth to_depth well_id

end AnalyzeDefs

section ConsolidatorLemmas

theorem interval_iou_comm (a0 a1 b0 b1 : ℚ) :
    interval_iou a0 a1 b0 b1 = interval_iou b0 b1 a0 a1 := by
  unfold interval_iou
  rw [min_comm a1 b1, max_comm a0 b0, max_comm a1 b1, min_comm a0 b0]

theorem nmsAux_pairwise (thr : ℚ) (rest : List Finding) :
    ∀ (kept : List Finding),
    List.Pairwise
      (fun a b => interval_iou a.fromDepth a.toDepth b.fromDepth b.toDepth < thr) kept →
    List.Pairwise
      (fun a b => interval_iou a.fromDepth a.toDepth b.fromDepth b.toDepth < thr)
      (nmsAux thr rest kept) := by
  induction rest with
  | nil => intro kept h; simpa [nmsAux] using h
  | cons f rest ih =>
    intro kept h
    unfold nmsAux
    split
    · rename_i hall
      apply ih
      rw [List.pairwise_append]
      refine ⟨h, List.pairwise_singleton _ _, ?_⟩
      intro a ha b hb
      rw [List.mem_singleton] at hb
      rw [hb]
      have h1 := List.all_eq_true.mp hall a ha
      have h2 : interval_iou f.fromDepth f.toDepth a.fromDepth a.toDepth < thr := by
        simpa using h1
      rw [interval_iou_comm] at h2
      exact h2
    · exact ih kept h

theorem nms_intervals_pairwise (findings : List Finding) (thr : ℚ) :
    List.Pairwise
      (fun a b => interval_iou a.fromDepth a.toDepth b.fromDepth b.toDepth < thr)
      (nms_intervals findings thr) :=
  nmsAux_pairwise thr findings [] (List.Pairwise.nil)

theorem zoneSepAux_sublist (ms : ℚ) (mk : ℕ) (rest : List Finding) :
    ∀ (out : List Finding) (centers : List ℚ),
    (zoneSepAux ms mk rest out centers).Sublist (out ++ rest) := by
  induction rest with
  | nil => intro out centers; simp [zoneSepAux]
  | cons f rest ih =>
    intro out centers
    unfold zoneSepAux
    cases hkeep :
        (centers.all fun cc => decide (ms ≤ |(f.fromDepth + f.toDepth) / 2 - cc|)) with
    | true =>
      simp only [hkeep, if_true]
      split
      · exact List.Sublist.append_left
          (List.cons_sublist_cons.mpr (List.nil_sublist rest)) out
      · have step := ih (out ++ [f]) (centers ++ [(f.fromDepth + f.toDepth) / 2])
        have : (out ++ [f]) ++ rest = out ++ f :: rest := by simp
        rw [this] at step
        exact step
    | false =>
      simp only [hkeep, Bool.false_eq_true, if_false]
      split
      · exact List.sublist_append_left out (f :: rest)
      · exact (ih out centers).trans
          (List.Sublist.append_left (List.sublist_cons_self f rest) out)

theorem zoneSepAux_pairwise (ms : ℚ) (mk : ℕ) (rest : List Finding) :
    ∀ (out : List Finding) (centers : List ℚ),
    centers = out.map (fun f => (f.fromDepth + f.toDepth) / 2) →
    List.Pairwise
      (fun a b => ms ≤ |(a.fromDepth + a.toDepth) / 2 - (b.fromDepth + b.toDepth) / 2|) out →
    List.Pairwise
      (fun a b => ms ≤ |(a.fromDepth + a.toDepth) / 2 - (b.fromDepth + b.toDepth) / 2|)
      (zoneSepAux ms mk rest out centers) := by
  induction rest with
  | nil => intro out centers _ hp; simpa [zoneSepAux] using hp
  | cons f rest ih =>
    intro out centers hc hp
    unfold zoneSepAux
    cases hkeep :
        (centers.all fun cc => decide (ms ≤ |(f.fromDepth + f.toDepth) / 2 - cc|)) with
    | true =>
      have hsep : ∀ a ∈ out,
          ms ≤ |(a.fromDepth + a.toDepth) / 2 - (f.fromDepth + f.toDepth) / 2| := by
        intro a ha
        have hmem : ((a.fromDepth + a.toDepth) / 2) ∈ centers := by
          rw [hc]; exact List.mem_map_of_mem _ ha
        have h1 := List.all_eq_true.mp hkeep _ hmem
        have h2 : ms ≤ |(f.fromDepth + f.toDepth) / 2 - (a.fromDepth + a.toDepth) / 2| := by
          simpa using h1
        rw [abs_sub_comm] at h2
        exact h2
      have hp2 : List.Pairwise
          (fun a b => ms ≤ |(a.fromDepth + a.toDepth) / 2 - (b.fromDepth + b.toDepth) / 2|)
          (out ++ [f]) := by
        rw [List.pairwise_append]
        refine ⟨hp, List.pairwise_singleton _ _, ?_⟩
        intro a ha b hb
        rw [List.mem_singleton] at hb
        rw [hb]
        exact hsep a ha
      simp only [hkeep, if_true]
      split
      · exact hp2
      · exact ih (out ++ [f]) (centers ++ [(f.fromDepth + f.toDepth) / 2])
          (by rw [hc]; simp) hp2
    | false =>
      simp only [hkeep, Bool.false_eq_true, if_false]
      split
      · exact hp
      · exact ih out centers hc hp

theorem zoneSepAux_length (ms : ℚ) (mk : ℕ) (rest : List Finding) :
    ∀ (out : List Finding) (centers : List ℚ), out.length < mk →
    (zoneSepAux ms mk rest out centers).length ≤ mk := by
  induction rest with
  | nil => intro out centers h; simpa [zoneSepAux] using le_of_lt h
  | cons f rest ih =>
    intro out centers h
    unfold zoneSepAux
    cases hkeep :
        (centers.all fun cc => decide (ms ≤ |(f.fromDepth + f.toDepth) / 2 - cc|)) with
    | true =>
      simp only [hkeep, if_true]
      split
      · simp only [List.length_append, List.length_singleton]
        omega
      · rename_i hlt
        have hlen : (out ++ [f]).length < mk := by
          simp only [List.length_append, List.length_singleton] at hlt ⊢
          omega
        exact ih (out ++ [f]) _ hlen
    | false =>
      simp only [hkeep, Bool.false_eq_true, if_false]
      split
      · exact le_of_lt h
      · exact ih out centers h

theorem enforce_zone_separation_pairwise (findings : List Finding) (ms : ℚ) (mk : ℕ) :
    List.Pairwise
      (fun a b => ms ≤ |(a.fromDepth + a.toDepth) / 2 - (b.fromDepth + b.toDepth) / 2|)
      (enforce_zone_separation findings ms mk) :=
  zoneSepAux_pairwise ms mk findings [] [] rfl List.Pairwise.nil

theorem enforce_zone_separation_sublist (findings : List Finding) (ms : ℚ) (mk : ℕ) :
    (enforce_zone_separation findings ms mk).Sublist findings := by
  have := zoneSepAux_sublist ms mk findings [] []
  simpa [enforce_zone_separation] using this

theorem enforce_zone_separation_length (findings : List Finding) (ms : ℚ) {mk : ℕ}
    (hmk : 0 < mk) : (enforce_zone_separation findings ms mk).length ≤ mk :=
  zoneSepAux_length ms mk findings [] [] (by simpa using hmk)

theorem annotate_preserves_bounds (findings all_findings : List Finding) (tol : ℚ) :
    ∃ g : Finding → Finding,
      annotate_interval_stability findings all_findings tol = findings.map g ∧
      ∀ f, (g f).fromDepth = f.fromDepth ∧ (g f).toDepth = f.toDepth := by
  cases findings with
  | nil => exact ⟨id, by simp [annotate_interval_stability], by simp⟩
  | cons a rest =>
    refine ⟨fun f =>
      { f with
        stability :=
          if 3/4 ≤ clipQ (35/100 * min 1
              (((all_findings.map (fun f2 => (f2.fromDepth + f2.toDepth) / 2)).countP
                (fun ac => decide (|(f.fromDepth + f.toDepth) / 2 - ac| ≤ tol)) : ℚ) / 4)
              + 30/100 * min 1 (max 0 (f.toDepth - f.fromDepth) / 18)
              + 25/100 * min 1 f.agreement
              + 10/100 * min 1 ((f.curvesSupporting : ℚ) / 2)) 0 1
          then Stability.stable
          else if 13/25 ≤ clipQ (35/100 * min 1
              (((all_findings.map (fun f2 => (f2.fromDepth + f2.toDepth) / 2)).countP
                (fun ac => decide (|(f.fromDepth + f.toDepth) / 2 - ac| ≤ tol)) : ℚ) / 4)
              + 30/100 * min 1 (max 0 (f.toDepth - f.fromDepth) / 18)
              + 25/100 * min 1 f.agreement
              + 10/100 * min 1 ((f.curvesSupporting : ℚ) / 2)) 0 1
          then Stability.moderate else Stability.unstable
        stabilityScore := roundTo (clipQ (35/100 * min 1
            (((all_findings.map (fun f2 => (f2.fromDepth + f2.toDepth) / 2)).countP
              (fun ac => decide (|(f.fromDepth + f.toDepth) / 2 - ac| ≤ tol)) : ℚ) / 4)
            + 30/100 * min 1 (max 0 (f.toDepth - f.fromDepth) / 18)
            + 25/100 * min 1 f.agreement
            + 10/100 * min 1 ((f.curvesSupporting : ℚ) / 2)) 0 1) 3 }, rfl, ?_⟩
    intro f
    exact ⟨rfl, rfl⟩

end ConsolidatorLemmas

/-- C1: for every input, the consolidated findings of the deterministic
output are at most 6, every pair has interval IoU strictly below 0.55,
and every pair of finding centers differs by at least 22 depth units. -/
theorem C1_kept_findings_separated (rows : List Row) (curves : List String)
    (from_depth to_depth : ℚ) (well_id : String) :
    ((analyze rows curves from_depth to_depth well_id).1.intervalFindings.length ≤ 6) ∧
    List.Pairwise
      (fun a b => interval_iou a.fromDepth a.toDepth b.fromDepth b.toDepth < 55/100)
      ((analyze rows curves from_depth to_depth well_id).1.intervalFindings) ∧
    List.Pairwise
      (fun a b => 22 ≤ |(a.fromDepth + a.toDepth) / 2 - (b.fromDepth + b.toDepth) / 2|)
      ((analyze rows curves from_depth to_depth well_id).1.intervalFindings) := by
  unfold analyze analyzeOnPrep
  split
  · refine ⟨?_, ?_, ?_⟩ <;> simp [lowDataBundle]
  · have hfind : (mainBundle (prepare rows curves) curves from_depth to_depth
        well_id).1.intervalFindings
        = consolidatedFindings (prepare rows curves) curves := by
      simp [mainBundle]
    rw [hfind]
    set P := prepare rows curves
    set ranked := rankedFindings P curves with hranked
    set kept := enforce_zone_separation (nms_intervals ranked (55/100)) 22 6 with hkept
    obtain ⟨g, hg, hgf⟩ := annotate_preserves_bounds kept ranked 10
    have hcon : consolidatedFindings P curves = (kept.map g).map (fun f =>
        { f with
          priority := if (5:ℝ) < f.score then Priority.strong
            else if (3:ℝ) ≤ f.score then Priority.elevated else Priority.watch
          probability := probability_bucket f.score f.confidence }) := by
      unfold consolidatedFindings
      simp only [← hranked, ← hkept, hg]
    rw [hcon]
    have hkept_len : kept.length ≤ 6 :=
      enforce_zone_separation_length (nms_intervals ranked (55/100)) 22 (by norm_num)
    have hkept_iou : List.Pairwise
        (fun a b => interval_iou a.fromDepth a.toDepth b.fromDepth b.toDepth < 55/100)
        kept :=
      List.Pairwise.sublist
        (enforce_zone_separation_sublist (nms_intervals ranked (55/100)) 22 6)
        (nms_intervals_pairwise ranked (55/100))
    have hkept_sep : List.Pairwise
        (fun a b => 22 ≤ |(a.fromDepth + a.toDepth) / 2 - (b.fromDepth + b.toDepth) / 2|)
        kept :=
      enforce_zone_separation_pairwise (nms_intervals ranked (55/100)) 22 6
    refine ⟨by simpa using hkept_len, ?_, ?_⟩
    · rw [List.map_map, List.pairwise_map]
      refine hkept_iou.imp ?_
      intro a b hab
      simpa [Function.comp, (hgf a).1, (hgf a).2, (hgf b).1, (hgf b).2] using hab
    · rw [List.map_map, List.pairwise_map]
      refine hkept_sep.imp ?_
      intro a b hab
      simpa [Function.comp, (hgf a).1, (hgf a).2, (hgf b).1, (hgf b).2] using hab

section MergeSpec

/-- One fold step of the spec-modelled merge: look at the previously kept
interval and either merge the current interval into it or append it. -/
noncomputable def specStep (gap : ℕ) (kept : List RawInterval) (cur : RawInterval) :
    List RawInterval :=
  match kept.getLast? with
  | none => [cur]
  | some prev =>
    if cur.i ≤ prev.j + gap ∧ cur.itype = prev.itype then
      kept.dropLast ++ [{ prev with
        j := max prev.j cur.j
        score := max prev.score cur.score
        curves := sortedUnion prev.curves cur.curves }]
    else kept ++ [cur]

/-- Modelled from the spec: sort Raw Intervals by start; merge into the
previously kept interval exactly when start ≤ prev_end + max_gap_idx AND
the shape matches; merged score is the max of the two scores and the
merged curve set the union of the two curve sets. -/
noncomputable def spec_merge (raw : List RawInterval) (max_gap_idx : ℕ) :
    List RawInterval :=
  (List.insertionSort (fun a b => a.i ≤ b.i) raw).foldl (specStep max_gap_idx) []

theorem specStep_concat (gap : ℕ) (kept : List RawInterval) (prev cur : RawInterval) :
    specStep gap (kept ++ [prev]) cur =
    if cur.i ≤ prev.j + gap ∧ cur.itype = prev.itype then
      kept ++ [{ prev with
        j := max prev.j cur.j
        score := max prev.score cur.score
        curves := sortedUnion prev.curves cur.curves }]
    else (kept ++ [prev]) ++ [cur] := by
  unfold specStep
  rw [List.getLast?_concat]
  simp only [List.dropLast_concat]

theorem mergeLoop_eq_foldl (gap : ℕ) (rest : List RawInterval) :
    ∀ (kept : List RawInterval) (prev : RawInterval),
    rest.foldl (specStep gap) (kept ++ [prev]) = kept ++ mergeLoop gap prev rest := by
  induction rest with
  | nil => intro kept prev; simp [mergeLoop]
  | cons cur rest ih =>
    intro kept prev
    rw [List.foldl_cons, specStep_concat]
    by_cases hcond : cur.i ≤ prev.j + gap ∧ cur.itype = prev.itype
    · rw [if_pos hcond, ih]
      congr 1
      conv_rhs => rw [mergeLoop]
      rw [if_pos hcond]
    · rw [if_neg hcond, ih (kept ++ [prev]) cur]
      conv_rhs => rw [mergeLoop]
      rw [if_neg hcond]
      simp

theorem merge_intervals_eq_spec (raw : List RawInterval) (gap : ℕ) :
    merge_intervals raw gap = spec_merge raw gap := by
  unfold merge_intervals spec_merge
  cases hs : List.insertionSort (fun a b => a.i ≤ b.i) raw with
  | nil => simp
  | cons first rest =>
    rw [List.foldl_cons]
    have h1 : specStep gap [] first = [] ++ [first] := rfl
    rw [h1]
    have := mergeLoop_eq_foldl gap rest [] first
    simpa using this.symm

theorem mergeLoop_head (gap : ℕ) (rest : List RawInterval) :
    ∀ (c : RawInterval), ∃ h t,
      mergeLoop gap c rest = h :: t ∧ h.i = c.i ∧ h.itype = c.itype := by
  induction rest with
  | nil => intro c; exact ⟨c, [], rfl, rfl, rfl⟩
  | cons cur rest ih =>
    intro c
    unfold mergeLoop
    by_cases hcond : cur.i ≤ c.j + gap ∧ cur.itype = c.itype
    · rw [if_pos hcond]
      obtain ⟨h, t, heq, hi, hty⟩ := ih _
      exact ⟨h, t, heq, hi, hty⟩
    · rw [if_neg hcond]
      exact ⟨c, mergeLoop gap cur rest, rfl, rfl, rfl⟩

theorem mergeLoop_chain (gap : ℕ) (rest : List RawInterval) :
    ∀ (prev : RawInterval),
    List.Chain' (fun a b => ¬(b.i ≤ a.j + gap ∧ b.itype = a.itype))
      (mergeLoop gap prev rest) := by
  induction rest with
  | nil => intro prev; simp [mergeLoop]
  | cons cur rest ih =>
    intro prev
    unfold mergeLoop
    by_cases hcond : cur.i ≤ prev.j + gap ∧ cur.itype = prev.itype
    · rw [if_pos hcond]
      exact ih _
    · rw [if_neg hcond]
      obtain ⟨h, t, heq, hi, hty⟩ := mergeLoop_head gap rest cur
      rw [heq]
      refine List.Chain'.cons ?_ (by rw [← heq]; exact ih cur)
      rw [hi, hty]
      exact hcond

end MergeSpec

/-- C7: interval merging sorts the raw intervals by start index and merges
an interval into the previously kept one exactly when its start is at
most the previous end plus the adaptive gap and the shape matches, taking
the max score and the union of the curve sets; consequently no two
adjacent merged intervals are still mergeable. -/
theorem C7_merge_intervals_spec (raw : List RawInterval) (gap : ℕ) :
    merge_intervals raw gap = spec_merge raw gap ∧
    List.Chain' (fun a b => ¬(b.i ≤ a.j + gap ∧ b.itype = a.itype))
      (merge_intervals raw gap) := by
  refine ⟨merge_intervals_eq_spec raw gap, ?_⟩
  unfold merge_intervals
  cases List.insertionSort (fun a b => a.i ≤ b.i) raw with
  | nil => simp
  | cons first rest => exact mergeLoop_chain gap rest first

section RobustZLemmas

/-- The robust scale of robust_z is non-finite (none) or below EPS. -/
def scaleDegenerate (x : List (Option ℚ)) : Prop :=
  ∀ s, rzScale x = some s → s < EPS

/-- The fallback standard deviation is non-finite (none) or below EPS. -/
def stdDegenerate (x : List (Option ℚ)) : Prop :=
  ∀ s, nanstd x = some s → s < ((EPS : ℚ) : ℝ)

theorem o1_isSome {α β : Type} (f : α → β) (a : Option α) (h : a.isSome) :
    (o1 f a).isSome := by
  cases a with
  | none => simp at h
  | some v => rfl

theorem forall₂_isSome_map (f : Option ℚ → Option ℝ)
    (hf : ∀ a, a.isSome → (f a).isSome) (x : List (Option ℚ)) :
    List.Forall₂ (fun (a : Option ℚ) (b : Option ℝ) => a.isSome → b.isSome) x (x.map f) := by
  induction x with
  | nil => simp
  | cons a rest ih => exact List.Forall₂.cons (hf a) ih

theorem robust_z_std_length (x : List (Option ℚ)) :
    (robust_z_std x).length = x.length := by
  rcases hsd : nanstd x with _ | sd <;> rcases hm : nanmean x with _ | m <;>
    simp only [robust_z_std, hsd, hm, List.length_map]
  split <;> simp

theorem robust_z_length (x : List (Option ℚ)) : (robust_z x).length = x.length := by
  rcases hsc : rzScale x with _ | scale <;> rcases hmed : nanmedian x with _ | med <;>
    simp only [robust_z, hsc, hmed]
  · exact robust_z_std_length x
  · exact robust_z_std_length x
  · exact robust_z_std_length x
  · split
    · exact robust_z_std_length x
    · simp

theorem robust_z_std_someness (x : List (Option ℚ)) :
    List.Forall₂ (fun (a : Option ℚ) (b : Option ℝ) => a.isSome → b.isSome) x
      (robust_z_std x) := by
  rcases hsd : nanstd x with _ | sd <;> rcases hm : nanmean x with _ | m <;>
    simp only [robust_z_std, hsd, hm]
  · exact forall₂_isSome_map (fun _ => some (0:ℝ)) (fun a _ => rfl) x
  · exact forall₂_isSome_map (fun _ => some (0:ℝ)) (fun a _ => rfl) x
  · exact forall₂_isSome_map (fun _ => some (0:ℝ)) (fun a _ => rfl) x
  · split
    · exact forall₂_isSome_map (fun _ => some (0:ℝ)) (fun a _ => rfl) x
    · exact forall₂_isSome_map _ (fun a h => o1_isSome _ a h) x

theorem robust_z_someness (x : List (Option ℚ)) :
    List.Forall₂ (fun (a : Option ℚ) (b : Option ℝ) => a.isSome → b.isSome) x
      (robust_z x) := by
  rcases hsc : rzScale x with _ | scale <;> rcases hmed : nanmedian x with _ | med <;>
    simp only [robust_z, hsc, hmed]
  · exact robust_z_std_someness x
  · exact robust_z_std_someness x
  · exact robust_z_std_someness x
  · split
    · exact robust_z_std_someness x
    · exact forall₂_isSome_map _ (fun a h => o1_isSome _ a h) x

theorem robust_z_std_degenerate_eq (x : List (Option ℚ)) (h : stdDegenerate x) :
    robust_z_std x = x.map (fun _ => some (0:ℝ)) := by
  rcases hsd : nanstd x with _ | sd <;> rcases hm : nanmean x with _ | m <;>
    simp only [robust_z_std, hsd, hm]
  rw [if_pos (h sd hsd)]

theorem robust_z_degenerate_eq (x : List (Option ℚ)) (hs : scaleDegenerate x)
    (hd : stdDegenerate x) : robust_z x = x.map (fun _ => some (0:ℝ)) := by
  rcases hsc : rzScale x with _ | scale <;> rcases hmed : nanmedian x with _ | med <;>
    simp only [robust_z, hsc, hmed]
  · exact robust_z_std_degenerate_eq x hd
  · exact robust_z_std_degenerate_eq x hd
  · exact robust_z_std_degenerate_eq x hd
  · rw [if_pos (hs scale hsc)]
    exact robust_z_std_degenerate_eq x hd

theorem finiteVals_map_none {α : Type} (x : List (Option α)) :
    finiteVals (x.map (fun _ => (none : Option α))) = [] := by
  induction x with
  | nil => rfl
  | cons a rest ih => simpa [finiteVals] using ih

theorem nanmedian_of_no_finite (x : List (Option ℚ)) (h : finiteVals x = []) :
    nanmedian x = none := by
  unfold nanmedian medianQ
  rw [h]
  rfl

theorem nanmean_of_no_finite (x : List (Option ℚ)) (h : finiteVals x = []) :
    nanmean x = none := by
  unfold nanmean meanQ
  rw [h]
  rfl

theorem rzScale_of_no_finite (x : List (Option ℚ)) (h : finiteVals x = []) :
    rzScale x = none := by
  unfold rzScale rzMad
  rw [nanmedian_of_no_finite x h]
  rfl

theorem nanstd_of_no_finite (x : List (Option ℚ)) (h : finiteVals x = []) :
    nanstd x = none := by
  unfold nanstd nanvarQ
  rw [nanmean_of_no_finite x h]
  rfl

theorem robust_z_of_no_finite (x : List (Option ℚ)) (h : finiteVals x = []) :
    robust_z x = x.map (fun _ => some (0:ℝ)) := by
  apply robust_z_degenerate_eq
  · intro s hs
    rw [rzScale_of_no_finite x h] at hs
    cases hs
  · intro s hs
    rw [nanstd_of_no_finite x h] at hs
    cases hs

end RobustZLemmas

/-- C8: robust_z is total, never introduces a NaN at a finite input
sample (so no division by zero or NaN propagates through its scale), and
collapses to an all-zero array of the input shape exactly as documented
when both the MAD-based scale and the standard deviation are
degenerate. -/
theorem C8_robust_z_total_safe (x : List (Option ℚ)) :
    (robust_z x).length = x.length ∧
    List.Forall₂ (fun (a : Option ℚ) (b : Option ℝ) => a.isSome → b.isSome) x (robust_z x) ∧
    (scaleDegenerate x → stdDegenerate x → robust_z x = x.map (fun _ => some (0:ℝ))) :=
  ⟨robust_z_length x, robust_z_someness x,
    fun hs hd => robust_z_degenerate_eq x hs hd⟩

/-- Witness for C8 at the all-NaN two-sample array: both fallback
conditions hold and robust_z returns the all-zero array. -/
theorem C8_robust_z_total_safe_witness :
    scaleDegenerate [none, none] ∧ stdDegenerate [none, none] ∧
    robust_z [none, none] = [some (0:ℝ), some 0] := by
  have hs : scaleDegenerate [none, none] := by
    intro s h
    rw [show rzScale [none, none] = none from rfl] at h
    cases h
  have hd : stdDegenerate [none, none] := by
    intro s h
    rw [show nanstd [none, none] = none from rfl] at h
    cases h
  refine ⟨hs, hd, ?_⟩
  have := (C8_robust_z_total_safe [none, none]).2.2 hs hd
  simpa using this

section ShortInputLemmas

/-- The median-filled clipped curve fed to the slope detector
(np.nan_to_num(x, nan=np.nanmedian(x)) on the clipped samples). -/
def fillOf (P : Prep) (c : String) : List (Option ℚ) :=
  (clippedOf P c).map (fun v => v.orElse (fun _ => nanmedian (clippedOf P c)))

/-- The composite score reduced to its slope term only: 0.38 times the
absolute robust z of the local slope, 0 at non-finite slope samples. -/
noncomputable def slopeOnlyScores (P : Prep) (c : String) : List ℝ :=
  (robust_z (gradientNU (fillOf P c) P.depths)).map
    (fun z => match z with
      | some v => 38/100 * |v|
      | none => 0)

theorem smoothWinOf_ge_nine (step : ℚ) : 9 ≤ smoothWinOf step := by
  unfold smoothWinOf
  have h1 : (9:ℤ) ≤ max 9 (min 121 (pyRound (18 / max step (1/1000000)))) := le_max_left _ _
  have h2 := Int.toNat_le_toNat h1
  simpa using h2

theorem o2_none_right {α β γ : Type} (f : α → β → γ) (a : Option α) :
    o2 f a none = none := by
  cases a <;> rfl

theorem zipWith_o2_none_right (f : ℚ → ℚ → ℚ) (x : List (Option ℚ)) :
    List.zipWith (o2 f) x (x.map (fun _ => none)) = x.map (fun _ => none) := by
  induction x with
  | nil => rfl
  | cons a rest ih =>
    simp only [List.map_cons, List.zipWith_cons_cons, ih, o2_none_right]

theorem robust_z_map_none (x : List (Option ℚ)) :
    robust_z (x.map (fun _ => none)) = x.map (fun _ => some (0:ℝ)) := by
  rw [robust_z_of_no_finite _ (finiteVals_map_none x), List.map_map]
  rfl

theorem gradientNU_length (y : List (Option ℚ)) (xs : List ℚ) :
    (gradientNU y xs).length = y.length := by
  unfold gradientNU
  split <;> simp

theorem rolling_mean_short (x : List (Option ℚ)) (w : ℕ) (h3 : 3 ≤ w)
    (h : x.length < w) : rolling_mean x (w : ℤ) = x.map (fun _ => none) := by
  unfold rolling_mean
  have hmax : (max 3 ((w:ℕ):ℤ)).toNat = w := by
    have : max (3:ℤ) (w:ℤ) = (w:ℤ) := max_eq_right (by exact_mod_cast h3)
    rw [this]
    exact Int.toNat_natCast w
  rw [hmax, if_pos h]

theorem zipWith_const_fun {α β γ : Type} (g : β → γ) :
    ∀ (l : List α) (l2 : List β), l2.length = l.length →
    List.zipWith (fun _ b => g b) l l2 = l2.map g := by
  intro l
  induction l with
  | nil =>
    intro l2 h
    rw [List.length_eq_zero.mp h]
    rfl
  | cons a rest ih =>
    intro l2 h
    cases l2 with
    | nil => simp at h
    | cons b bs =>
      simp only [List.zipWith_cons_cons, List.map_cons]
      rw [ih bs (by simpa using h)]

end ShortInputLemmas

/-- C10: when a curve has fewer aligned samples than the adaptive
smoothing window, rolling_mean returns an all-NaN array instead of
averaging the available samples, the residual level-anomaly term then
collapses to all zeros through the degenerate fallback of robust_z, and
the composite score reduces to the slope term alone, so the detector
completes without error. -/
theorem C10_rolling_mean_short_input (P : Prep) (c : String)
    (h : (clippedOf P c).length < smoothWinOf (medianStep P.depths)) :
    rolling_mean (clippedOf P c) (smoothWinOf (medianStep P.depths)) =
      (clippedOf P c).map (fun _ => none) ∧
    (robust_z (List.zipWith (o2 (fun a b => a - b)) (clippedOf P c)
        ((clippedOf P c).map (fun _ => none)))).map (o1 (fun v => |v|)) =
      (clippedOf P c).map (fun _ => some (0:ℝ)) ∧
    scoresOf P c = slopeOnlyScores P c := by
  have h3 : 3 ≤ smoothWinOf (medianStep P.depths) :=
    le_trans (by norm_num) (smoothWinOf_ge_nine _)
  have h1 : rolling_mean (clippedOf P c) (smoothWinOf (medianStep P.depths)) =
      (clippedOf P c).map (fun _ => none) :=
    rolling_mean_short _ _ h3 h
  have h2res : List.zipWith (o2 (fun a b => a - b)) (clippedOf P c)
      ((clippedOf P c).map (fun _ => none)) = (clippedOf P c).map (fun _ => none) :=
    zipWith_o2_none_right _ _
  have h2 : (robust_z (List.zipWith (o2 (fun a b => a - b)) (clippedOf P c)
      ((clippedOf P c).map (fun _ => none)))).map (o1 (fun v => |v|)) =
      (clippedOf P c).map (fun _ => some (0:ℝ)) := by
    rw [h2res, robust_z_map_none, List.map_map]
    apply List.map_congr_left
    intro a _
    simp [o1, abs_zero]
  refine ⟨h1, h2, ?_⟩
  simp only [scoresOf]
  rw [h1, h2res, robust_z_map_none]
  have habs : ((clippedOf P c).map (fun _ => some (0:ℝ))).map (o1 (fun v => |v|)) =
      (clippedOf P c).map (fun _ => some (0:ℝ)) := by
    rw [List.map_map]
    apply List.map_congr_left
    intro a _
    simp [o1, abs_zero]
  rw [habs]
  have hlen : ((robust_z (gradientNU (fillOf P c) P.depths)).map
      (o1 (fun v => |v|))).length = (clippedOf P c).length := by
    rw [List.length_map, robust_z_length, gradientNU_length]
    unfold fillOf
    rw [List.length_map]
  rw [List.zipWith_map_left]
  have hfill : (clippedOf P c).map (fun v => v.orElse (fun _ => nanmedian (clippedOf P c)))
      = fillOf P c := rfl
  rw [hfill]
  have hzw := zipWith_const_fun
    (fun b => o2 (fun (a : ℝ) (b : ℝ) => 62/100 * a + 38/100 * b) (some 0) b)
    (clippedOf P c)
    ((robust_z (gradientNU (fillOf P c) P.depths)).map (o1 (fun v => |v|))) hlen
  simp only [hzw, List.map_map]
  unfold slopeOnlyScores
  apply List.map_congr_left
  intro z _
  cases z with
  | none => simp [o1, o2, Function.comp]
  | some v =>
    simp only [Function.comp, o1, o2, Option.getD_some]
    ring

/-- A five-sample prepared state with a fine (0.1) depth step, for which
the adaptive smoothing window (121) exceeds the sample count. -/
def shortPrep : Prep :=
  { depths := [0, 1/10, 2/10, 3/10, 4/10]
    data := [("A", [some 1, some 2, some 1, some 2, some 1])] }

/-- Witness for C10: on the five-sample curve with depth step 0.1 the
window is 121 > 5, and the composite score collapses to the slope term. -/
theorem C10_rolling_mean_short_input_witness :
    (clippedOf shortPrep "A").length < smoothWinOf (medianStep shortPrep.depths) ∧
    scoresOf shortPrep "A" = slopeOnlyScores shortPrep "A" := by
  have harr : dataOf shortPrep "A" = [some 1, some 2, some 1, some 2, some 1] := by
    norm_num [dataOf, shortPrep, List.lookup]
  have hclip : clippedOf shortPrep "A" = [some 1, some 2, some 1, some 2, some 1] := by
    norm_num [clippedOf, harr, clip_percentile, finiteVals, List.filterMap_cons, id_eq]
  have hdiffs : posDiffs shortPrep.depths = [1/10, 1/10, 1/10, 1/10] := by
    norm_num [posDiffs, shortPrep, List.zip_cons_cons, List.filter_cons,
      decide_eq_true_eq]
  have hstep : medianStep shortPrep.depths = 1/10 := by
    norm_num [medianStep, hdiffs, medianQ, sortQ, List.insertionSort,
      List.orderedInsert]
  have hwin : smoothWinOf (medianStep shortPrep.depths) = 121 := by
    rw [hstep]
    norm_num [smoothWinOf, pyRound, max_def, min_def]
    rfl
  have hlen : (clippedOf shortPrep "A").length < smoothWinOf (medianStep shortPrep.depths) := by
    rw [hclip, hwin]
    norm_num
  exact ⟨hlen, (C10_rolling_mean_short_input shortPrep "A" hlen).2.2⟩

section AggregateBounds

theorem pyRoundR_intCast (m : ℤ) : pyRoundR (m : ℝ) = m := by
  unfold pyRoundR
  rw [Int.floor_intCast]
  norm_num

theorem roundToR_of_int (x : ℝ) (d : ℕ) (m : ℤ) (h : x * 10 ^ d = m) :
    roundToR x d = x := by
  unfold roundToR
  rw [h, pyRoundR_intCast]
  rw [← h]
  field_simp

theorem pyRound_intCast (m : ℤ) : pyRound (m : ℚ) = m := by
  unfold pyRound
  rw [Int.floor_intCast]
  norm_num

theorem roundTo_of_int (q : ℚ) (d : ℕ) (m : ℤ) (h : q * 10 ^ d = m) :
    roundTo q d = q := by
  unfold roundTo
  rw [h, pyRound_intCast]
  rw [← h]
  field_simp

theorem anomalyRaw_mem (P : Prep) (curves : List String) :
    0 ≤ anomalyRaw P curves ∧ anomalyRaw P curves ≤ 1 := by
  unfold anomalyRaw
  exact clipR_mem _ _ _ (by norm_num)

theorem detectionConfOf_mem (P : Prep) (curves : List String) :
    1/4 ≤ detectionConfOf P curves ∧ detectionConfOf P curves ≤ 95/100 := by
  unfold detectionConfOf
  exact clipQ_mem _ _ _ (by norm_num)

theorem severityConfOf_mem (P : Prep) (curves : List String) :
    1/5 ≤ severityConfOf P curves ∧ severityConfOf P curves ≤ 92/100 := by
  unfold severityConfOf
  exact clipR_mem _ _ _ (by norm_num)

theorem anomalyFinal_mem (P : Prep) (curves : List String) :
    0 ≤ anomalyFinal P curves ∧ anomalyFinal P curves ≤ 1 := by
  unfold anomalyFinal
  split
  · exact ⟨le_min (anomalyRaw_mem P curves).1 (by norm_num),
      le_trans (min_le_left _ _) (anomalyRaw_mem P curves).2⟩
  · exact anomalyRaw_mem P curves

theorem severityFinal_mem (P : Prep) (curves : List String) :
    1/5 ≤ severityFinal P curves ∧ severityFinal P curves ≤ 92/100 := by
  unfold severityFinal
  split
  · exact ⟨le_min (severityConfOf_mem P curves).1 (by norm_num),
      le_trans (min_le_right _ _) (by norm_num)⟩
  · exact severityConfOf_mem P curves

theorem mainBundle_det_fields (P : Prep) (curves : List String)
    (from_depth to_depth : ℚ) (well_id : String) :
    (mainBundle P curves from_depth to_depth well_id).1.eventCount
        = (consolidatedFindings P curves).length ∧
    (mainBundle P curves from_depth to_depth well_id).1.anomalyScore
        = roundToR (anomalyFinal P curves) 3 ∧
    (mainBundle P curves from_depth to_depth well_id).1.detectionConfidence
        = roundTo (detectionConfOf P curves) 3 ∧
    (mainBundle P curves from_depth to_depth well_id).1.severityConfidence
        = roundToR (severityFinal P curves) 3 ∧
    (mainBundle P curves from_depth to_depth well_id).1.severityBand
        = bandOf (anomalyRaw P curves) (1/4) (1/2) (3/4) ∧
    (mainBundle P curves from_depth to_depth well_id).1.intervalFindings
        = consolidatedFindings P curves := by
  refine ⟨?_, ?_, ?_, ?_, ?_, ?_⟩ <;> simp [mainBundle]

theorem lowDataBundle_det_fields (P : Prep) (curves : List String)
    (from_depth to_depth : ℚ) (well_id : String) :
    (lowDataBundle P curves from_depth to_depth well_id).1.eventCount = 0 ∧
    (lowDataBundle P curves from_depth to_depth well_id).1.anomalyScore = 0 ∧
    (lowDataBundle P curves from_depth to_depth well_id).1.detectionConfidence = 1/4 ∧
    (lowDataBundle P curves from_depth to_depth well_id).1.severityConfidence = 1/5 ∧
    (lowDataBundle P curves from_depth to_depth well_id).1.severityBand = Band.LOW ∧
    (lowDataBundle P curves from_depth to_depth well_id).1.intervalFindings = [] := by
  have hmin1 : min (0:ℝ) (49/100) = 0 := by norm_num
  have hmin2 : min (1/5:ℝ) (55/100) = 1/5 := by norm_num
  have h0 : roundToR (0:ℝ) 3 = 0 := roundToR_of_int 0 3 0 (by norm_num)
  have h14 : roundTo (1/4:ℚ) 3 = 1/4 := roundTo_of_int (1/4) 3 250 (by norm_num)
  have h15 : roundToR (1/5:ℝ) 3 = 1/5 := roundToR_of_int (1/5) 3 200 (by norm_num)
  have hband : bandOf (0:ℝ) (1/4) (1/2) (3/4) = Band.LOW := by
    unfold bandOf
    rw [if_neg (by norm_num), if_neg (by norm_num), if_neg (by norm_num)]
  refine ⟨by simp [lowDataBundle], ?_, ?_, ?_, ?_, by simp [lowDataBundle]⟩
  · show (lowDataBundle P curves from_depth to_depth well_id).1.anomalyScore = 0
    simp only [lowDataBundle]
    rw [hmin1, h0]
  · show (lowDataBundle P curves from_depth to_depth well_id).1.detectionConfidence = 1/4
    simp only [lowDataBundle]
    rw [h14]
  · show (lowDataBundle P curves from_depth to_depth well_id).1.severityConfidence = 1/5
    simp only [lowDataBundle]
    rw [hmin2, h15]
  · show (lowDataBundle P curves from_depth to_depth well_id).1.severityBand = Band.LOW
    simp only [lowDataBundle]
    rw [hband]

end AggregateBounds

/-- C3: for every input the returned anomaly score lies in [0, 1], the
detection confidence in [0.25, 0.95] and the severity confidence in
[0.20, 0.92] (hence all three lie in [0, 1]). -/
theorem C3_confidence_ranges (rows : List Row) (curves : List String)
    (from_depth to_depth : ℚ) (well_id : String) :
    (0 ≤ (analyze rows curves from_depth to_depth well_id).1.anomalyScore ∧
      (analyze rows curves from_depth to_depth well_id).1.anomalyScore ≤ 1) ∧
    (1/4 ≤ (analyze rows curves from_depth to_depth well_id).1.detectionConfidence ∧
      (analyze rows curves from_depth to_depth well_id).1.detectionConfidence ≤ 95/100) ∧
    (1/5 ≤ (analyze rows curves from_depth to_depth well_id).1.severityConfidence ∧
      (analyze rows curves from_depth to_depth well_id).1.severityConfidence ≤ 92/100) := by
  unfold analyze analyzeOnPrep
  split
  · obtain ⟨-, ha, hd, hs, -, -⟩ :=
      lowDataBundle_det_fields (prepare rows curves) curves from_depth to_depth well_id
    rw [ha, hd, hs]
    norm_num
  · obtain ⟨-, ha, hd, hs, -, -⟩ :=
      mainBundle_det_fields (prepare rows curves) curves from_depth to_depth well_id
    rw [ha, hd, hs]
    set P := prepare rows curves
    refine ⟨⟨?_, ?_⟩, ⟨?_, ?_⟩, ⟨?_, ?_⟩⟩
    · exact le_roundToR 3 ⟨0, by norm_num⟩ (anomalyFinal_mem P curves).1
    · exact roundToR_le 3 ⟨1000, by norm_num⟩ (anomalyFinal_mem P curves).2
    · exact le_roundTo 3 ⟨250, by norm_num⟩ (detectionConfOf_mem P curves).1
    · exact roundTo_le 3 ⟨950, by norm_num⟩ (detectionConfOf_mem P curves).2
    · exact le_roundToR 3 ⟨200, by norm_num⟩ (severityFinal_mem P curves).1
    · exact roundToR_le 3 ⟨920, by norm_num⟩ (severityFinal_mem P curves).2

/-- Three distinct-depth rows: a concrete input that takes the
insufficient-data branch of analyze. -/
def smallRows : List Row :=
  [{ depth := 0, values := [("A", some 1)] },
   { depth := 1, values := [("A", some 2)] },
   { depth := 2, values := [("A", some 3)] }]

theorem smallRows_prep_short : (prepare smallRows ["A"]).depths.length < 20 := by
  have hsort : sortRows smallRows = smallRows := by
    norm_num [sortRows, smallRows, List.insertionSort, List.orderedInsert]
  have hded : dedupRows (sortRows smallRows) = smallRows := by
    rw [hsort]
    norm_num [dedupRows, dedupAux, smallRows]
  show ((dedupRows (sortRows smallRows)).map Row.depth).length < 20
  rw [hded]
  norm_num [smallRows]

/-- C2: whenever the deterministic output reports zero consolidated
findings, the returned anomaly score is at most 0.49 and the returned
severity confidence at most 0.55 (the consistency guard). -/
theorem C2_zero_findings_caps (rows : List Row) (curves : List String)
    (from_depth to_depth : ℚ) (well_id : String)
    (h : (analyze rows curves from_depth to_depth well_id).1.eventCount = 0) :
    (analyze rows curves from_depth to_depth well_id).1.anomalyScore ≤ 49/100 ∧
    (analyze rows curves from_depth to_depth well_id).1.severityConfidence ≤ 55/100 := by
  unfold analyze analyzeOnPrep at h ⊢
  by_cases hn : (prepare rows curves).depths.length < 20
  · rw [if_pos hn]
    obtain ⟨-, ha, -, hs, -, -⟩ :=
      lowDataBundle_det_fields (prepare rows curves) curves from_depth to_depth well_id
    rw [ha, hs]
    norm_num
  · rw [if_neg hn] at h ⊢
    obtain ⟨hev, ha, -, hs, -, -⟩ :=
      mainBundle_det_fields (prepare rows curves) curves from_depth to_depth well_id
    rw [hev] at h
    rw [ha, hs]
    constructor
    · apply roundToR_le 3 ⟨490, by norm_num⟩
      unfold anomalyFinal
      rw [if_pos h]
      exact min_le_right _ _
    · apply roundToR_le 3 ⟨550, by norm_num⟩
      unfold severityFinal
      rw [if_pos h]
      exact min_le_right _ _

/-- Witness for C2: a three-row input takes the insufficient-data branch,
reports zero findings, and both caps hold. -/
theorem C2_zero_findings_caps_witness :
    (analyze smallRows ["A"] 0 2 "W").1.eventCount = 0 ∧
    (analyze smallRows ["A"] 0 2 "W").1.anomalyScore ≤ 49/100 ∧
    (analyze smallRows ["A"] 0 2 "W").1.severityConfidence ≤ 55/100 := by
  have hev : (analyze smallRows ["A"] 0 2 "W").1.eventCount = 0 := by
    unfold analyze analyzeOnPrep
    rw [if_pos smallRows_prep_short]
    exact (lowDataBundle_det_fields _ _ _ _ _).1
  exact ⟨hev, (C2_zero_findings_caps smallRows ["A"] 0 2 "W" hev).1,
    (C2_zero_findings_caps smallRows ["A"] 0 2 "W" hev).2⟩

/-- When fewer than 20 rows survive preparation, the returned bundle
(the value analyze produces whenever build_insight does not raise, see
analyzeRaisesZeroDiv) is the documented low-confidence one: zero
findings, eventCount 0, anomalyScore 0.0, detectionConfidence 0.25,
severityConfidence 0.20 and severityBand LOW. -/
theorem lowData_branch_fields (rows : List Row) (curves : List String)
    (from_depth to_depth : ℚ) (well_id : String)
    (h : (prepare rows curves).depths.length < 20) :
    (analyze rows curves from_depth to_depth well_id).1.eventCount = 0 ∧
    (analyze rows curves from_depth to_depth well_id).1.intervalFindings = [] ∧
    (analyze rows curves from_depth to_depth well_id).1.anomalyScore = 0 ∧
    (analyze rows curves from_depth to_depth well_id).1.detectionConfidence = 1/4 ∧
    (analyze rows curves from_depth to_depth well_id).1.severityConfidence = 1/5 ∧
    (analyze rows curves from_depth to_depth well_id).1.severityBand = Band.LOW := by
  unfold analyze analyzeOnPrep
  rw [if_pos h]
  obtain ⟨h1, h2, h3, h4, h5, h6⟩ :=
    lowDataBundle_det_fields (prepare rows curves) curves from_depth to_depth well_id
  exact ⟨h1, h6, h2, h3, h4, h5⟩

/-- The bundle fields at a concrete three-row input. -/
theorem lowData_branch_fields_example :
    (prepare smallRows ["A"]).depths.length < 20 ∧
    (analyze smallRows ["A"] 0 2 "W").1.eventCount = 0 ∧
    (analyze smallRows ["A"] 0 2 "W").1.intervalFindings = [] ∧
    (analyze smallRows ["A"] 0 2 "W").1.anomalyScore = 0 ∧
    (analyze smallRows ["A"] 0 2 "W").1.detectionConfidence = 1/4 ∧
    (analyze smallRows ["A"] 0 2 "W").1.severityConfidence = 1/5 ∧
    (analyze smallRows ["A"] 0 2 "W").1.severityBand = Band.LOW :=
  ⟨smallRows_prep_short,
    lowData_branch_fields smallRows ["A"] 0 2 "W" smallRows_prep_short⟩


section QuietInputLemmas

theorem exists_max_of_ne_nil (v : List ℝ) (h : v ≠ []) :
    ∃ M, M ∈ v ∧ ∀ y ∈ v, y ≤ M := by
  induction v with
  | nil => exact absurd rfl h
  | cons a rest ih =>
    by_cases hrest : rest = []
    · subst hrest
      refine ⟨a, List.mem_cons_self _ _, ?_⟩
      intro y hy
      rcases List.mem_cons.mp hy with h1 | h1
      · exact le_of_eq h1
      · exact absurd h1 (List.not_mem_nil y)
    · rcases ih hrest with ⟨M, hM, hb⟩
      refine ⟨max a M, ?_, ?_⟩
      · rcases max_choice a M with h1 | h1 <;> rw [h1]
        · exact List.mem_cons_self _ _
        · exact List.mem_cons_of_mem _ hM
      · intro y hy
        rcases List.mem_cons.mp hy with h1 | h1
        · rw [h1]; exact le_max_left _ _
        · exact le_trans (hb y h1) (le_max_right _ _)

theorem interp_le {a b M t : ℝ} (ha : a ≤ M) (hb : b ≤ M)
    (ht0 : 0 ≤ t) (ht1 : t ≤ 1) : a + t * (b - a) ≤ M := by
  nlinarith [mul_nonneg ht0 (sub_nonneg.mpr hb), mul_nonneg (sub_nonneg.mpr ht1) (sub_nonneg.mpr ha)]

theorem percentileR_le {v : List ℝ} {M : ℝ} (p : ℚ) (hne : v ≠ [])
    (hp0 : 0 ≤ p) (hp100 : p ≤ 100) (h : ∀ y ∈ v, y ≤ M) :
    percentileR v p ≤ M := by
  rcases hv : v.length with _ | m
  · exact absurd (List.length_eq_zero.mp hv) hne
  · have hperm : (sortR v).Perm v := List.perm_insertionSort _ v
    have hslen : (sortR v).length = m + 1 := by rw [hperm.length_eq, hv]
    have hs : ∀ y ∈ sortR v, y ≤ M := fun y hy => h y (hperm.mem_iff.mp hy)
    simp only [percentileR, hv]
    set hq : ℚ := p * (m : ℚ) / 100 with hhq
    have hq0 : (0:ℚ) ≤ hq := by rw [hhq]; positivity
    have hqm : hq ≤ (m:ℚ) := by
      rw [hhq, div_le_iff (by norm_num : (0:ℚ) < 100)]
      have hmul : p * (m:ℚ) ≤ 100 * (m:ℚ) := mul_le_mul_of_nonneg_right hp100 (by positivity)
      linarith
    have hfl0 : 0 ≤ ⌊hq⌋ := Int.floor_nonneg.mpr hq0
    have hflm : ⌊hq⌋ ≤ (m:ℤ) := by
      have h1 := Int.floor_le_floor hqm
      rwa [Int.floor_natCast] at h1
    have hclm : ⌈hq⌉ ≤ (m:ℤ) := by
      rw [Int.ceil_le]; exact_mod_cast hqm
    have hlo_lt : (⌊hq⌋).toNat < (sortR v).length := by rw [hslen]; omega
    have hhi_lt : (⌈hq⌉).toNat < (sortR v).length := by rw [hslen]; omega
    have hsl : (sortR v).getD (⌊hq⌋).toNat 0 ≤ M := by
      rw [List.getD_eq_getElem _ _ hlo_lt]
      exact hs _ (List.getElem_mem hlo_lt)
    have hsh : (sortR v).getD (⌈hq⌉).toNat 0 ≤ M := by
      rw [List.getD_eq_getElem _ _ hhi_lt]
      exact hs _ (List.getElem_mem hhi_lt)
    have hcast : (((⌊hq⌋).toNat : ℕ) : ℚ) = ((⌊hq⌋ : ℤ) : ℚ) := by
      exact_mod_cast Int.toNat_of_nonneg hfl0
    have ht0 : (0:ℝ) ≤ ((hq : ℝ)) - (((⌊hq⌋).toNat : ℕ) : ℝ) := by
      have h1 : (((⌊hq⌋).toNat : ℕ) : ℚ) ≤ hq := by rw [hcast]; exact Int.floor_le hq
      have h2 : (((⌊hq⌋).toNat : ℕ) : ℝ) ≤ (hq : ℝ) := by exact_mod_cast h1
      linarith
    have ht1 : ((hq : ℝ)) - (((⌊hq⌋).toNat : ℕ) : ℝ) ≤ 1 := by
      have h1 : hq ≤ (((⌊hq⌋).toNat : ℕ) : ℚ) + 1 := by
        rw [hcast]; exact le_of_lt (Int.lt_floor_add_one hq)
      have h2 : (hq : ℝ) ≤ (((⌊hq⌋).toNat : ℕ) : ℝ) + 1 := by exact_mod_cast h1
      linarith
    exact interp_le hsl hsh ht0 ht1

theorem maskOf_all_false (P : Prep) (c : String)
    (h : ∀ s ∈ scoresOf P c, s < thrOf P c) :
    ∀ b ∈ maskOf P c, b = false := by
  intro b hb
  unfold maskOf at hb
  rcases List.mem_map.mp hb with ⟨s, hs, rfl⟩
  exact decide_eq_false (not_le.mpr (h s hs))

theorem runsAux_all_false (mask : List Bool) :
    ∀ pos, (∀ b ∈ mask, b = false) → runsAux pos none mask = [] := by
  induction mask with
  | nil => intro pos _; rfl
  | cons b rest ih =>
    intro pos h
    have hb : b = false := h b (List.mem_cons_self _ _)
    subst hb
    simp only [runsAux]
    exact ih (pos + 1) (fun x hx => h x (List.mem_cons_of_mem _ hx))

theorem contiguous_runs_all_false (mask : List Bool) (h : ∀ b ∈ mask, b = false) :
    contiguous_runs mask = [] := runsAux_all_false mask 0 h

theorem runsOf_nil (P : Prep) (c : String)
    (h : ∀ s ∈ scoresOf P c, s < thrOf P c) : runsOf P c = [] := by
  unfold runsOf
  rw [contiguous_runs_all_false _ (maskOf_all_false P c h)]
  rfl

theorem rawIntervalsOf_nil (P : Prep) (c : String)
    (h : ∀ s ∈ scoresOf P c, s < thrOf P c) : rawIntervalsOf P c = [] := by
  unfold rawIntervalsOf
  rw [runsOf_nil P c h]
  rfl

theorem foldr_rawIntervals_nil (P : Prep) :
    ∀ (l : List String), (∀ c ∈ l, rawIntervalsOf P c = []) →
      l.foldr (fun c acc => rawIntervalsOf P c ++ acc) [] = [] := by
  intro l
  induction l with
  | nil => intro _; rfl
  | cons c rest ih =>
    intro h
    simp only [List.foldr_cons]
    rw [h c (List.mem_cons_self _ _), List.nil_append]
    exact ih (fun x hx => h x (List.mem_cons_of_mem _ hx))

theorem rankedFindings_nil (P : Prep) (curves : List String)
    (h : ∀ c ∈ activeCurves P curves, ∀ s ∈ scoresOf P c, s < thrOf P c) :
    rankedFindings P curves = [] := by
  simp only [rankedFindings]
  rw [foldr_rawIntervals_nil P (activeCurves P curves)
    (fun c hc => rawIntervalsOf_nil P c (h c hc))]
  rfl

theorem consolidatedFindings_nil (P : Prep) (curves : List String)
    (h : rankedFindings P curves = []) : consolidatedFindings P curves = [] := by
  simp only [consolidatedFindings]
  rw [h]
  rfl

theorem getD_all_false : ∀ (m : List Bool), (∀ b ∈ m, b = false) →
    ∀ idx, m.getD idx false = false := by
  intro m
  induction m with
  | nil => intro _ idx; rfl
  | cons b rest ih =>
    intro h idx
    cases idx with
    | zero => rw [List.getD_cons_zero]; exact h b (List.mem_cons_self _ _)
    | succ n => rw [List.getD_cons_succ]; exact ih (fun x hx => h x (List.mem_cons_of_mem _ hx)) n

theorem meanQD_zero {v : List ℚ} (h : ∀ y ∈ v, y = 0) : meanQD v 0 = 0 := by
  unfold meanQD
  split
  · rfl
  · rw [List.sum_eq_zero h, zero_div]

theorem agreementMask_zero (P : Prep) (curves : List String)
    (h : ∀ c ∈ activeCurves P curves, ∀ b ∈ maskOf P c, b = false) :
    ∀ y ∈ agreementMask P curves, y = 0 := by
  intro y hy
  simp only [agreementMask] at hy
  by_cases hlen : ((activeCurves P curves).map (fun c => maskOf P c)).length < 2
  · rw [if_pos hlen] at hy
    exact List.eq_of_mem_replicate hy
  · rw [if_neg hlen] at hy
    rcases List.mem_map.mp hy with ⟨idx, _, rfl⟩
    have hz : ∀ t ∈ ((activeCurves P curves).map (fun c => maskOf P c)).map
        (fun m => if m.getD idx false then (1:ℚ) else 0), t = 0 := by
      intro t ht
      rcases List.mem_map.mp ht with ⟨m, hm, rfl⟩
      rcases List.mem_map.mp hm with ⟨c, hc, rfl⟩
      rw [getD_all_false _ (h c hc) idx]
      rfl
    rw [List.sum_eq_zero hz, zero_div]

theorem agreeGlobal_zero (P : Prep) (curves : List String)
    (h : ∀ c ∈ activeCurves P curves, ∀ b ∈ maskOf P c, b = false) :
    agreeGlobal P curves = 0 := by
  unfold agreeGlobal
  split
  · rfl
  · exact meanQD_zero (agreementMask_zero P curves h)

theorem dedupAux_of_forall_lt : ∀ (l : List Row) (prev : ℚ),
    (∀ r ∈ l, prev < r.depth) → List.Pairwise (fun a b => a.depth < b.depth) l →
    dedupAux prev l = l := by
  intro l
  induction l with
  | nil => intro prev _ _; rfl
  | cons r rest ih =>
    intro prev hall hpw
    simp only [dedupAux]
    rw [if_pos (hall r (List.mem_cons_self _ _))]
    rw [ih r.depth (fun x hx => (List.pairwise_cons.mp hpw).1 x hx)
      (List.pairwise_cons.mp hpw).2]

theorem dedupRows_of_pairwise (l : List Row)
    (hpw : List.Pairwise (fun a b => a.depth < b.depth) l) : dedupRows l = l := by
  cases l with
  | nil => rfl
  | cons r rest =>
    simp only [dedupRows]
    rw [dedupAux_of_forall_lt rest r.depth (fun x hx => (List.pairwise_cons.mp hpw).1 x hx)
      (List.pairwise_cons.mp hpw).2]

theorem sortRows_pairwise_lt (rows : List Row) (hnodup : (rows.map Row.depth).Nodup) :
    List.Pairwise (fun a b => a.depth < b.depth) (sortRows rows) := by
  haveI instTot : IsTotal Row (fun a b => a.depth ≤ b.depth) := ⟨fun a b => le_total _ _⟩
  haveI instTrans : IsTrans Row (fun a b => a.depth ≤ b.depth) :=
    ⟨fun a b c hab hbc => le_trans hab hbc⟩
  have hsorted : List.Pairwise (fun a b : Row => a.depth ≤ b.depth) (sortRows rows) :=
    List.sorted_insertionSort _ rows
  have hperm : (sortRows rows).Perm rows := List.perm_insertionSort _ rows
  have hnodup2 : ((sortRows rows).map Row.depth).Nodup :=
    ((hperm.map Row.depth).nodup_iff).mpr hnodup
  have hne : List.Pairwise (fun a b : Row => a.depth ≠ b.depth) (sortRows rows) :=
    List.pairwise_map.mp hnodup2
  exact (hsorted.and hne).imp (fun h => lt_of_le_of_ne h.1 h.2)

theorem prepare_depths_length (rows : List Row) (curves : List String)
    (hnodup : (rows.map Row.depth).Nodup) :
    (prepare rows curves).depths.length = rows.length := by
  simp only [prepare]
  rw [dedupRows_of_pairwise _ (sortRows_pairwise_lt rows hnodup)]
  rw [List.length_map]
  exact (List.perm_insertionSort _ rows).length_eq

theorem scores_lt_26 (P : Prep) (c : String)
    (h : ∀ s ∈ scoresOf P c, s < thrOf P c) :
    ∀ s ∈ scoresOf P c, s < 26/10 := by
  by_cases hemp : scoresOf P c = []
  · intro s hs; rw [hemp] at hs; exact absurd hs (List.not_mem_nil s)
  · rcases exists_max_of_ne_nil _ hemp with ⟨M, hM, hbound⟩
    have hthr : M < thrOf P c := h M hM
    have hpct : percentileR (scoresOf P c) 92 ≤ M :=
      percentileR_le 92 hemp (by norm_num) (by norm_num) hbound
    have hM26 : M < 26/10 := by
      rcases le_or_lt (percentileR (scoresOf P c) 92) (26/10) with hle | hgt
      · have he : thrOf P c = 26/10 := by unfold thrOf; exact max_eq_left hle
        rw [he] at hthr; exact hthr
      · exfalso
        have he : thrOf P c = percentileR (scoresOf P c) 92 := by
          unfold thrOf; exact max_eq_right (le_of_lt hgt)
        rw [he] at hthr
        exact absurd (lt_of_lt_of_le hthr hpct) (lt_irrefl M)
    intro s hs
    exact lt_of_le_of_lt (hbound s hs) hM26

theorem pcOf_le (P : Prep) (c : String)
    (h : ∀ s ∈ scoresOf P c, s < thrOf P c) :
    pcOf P c ≤ 26/70 := by
  have h26 := scores_lt_26 P c h
  have hpct : percentileR (scoresOf P c) 95 ≤ 26/10 := by
    by_cases hemp : scoresOf P c = []
    · rw [hemp]
      norm_num [percentileR]
    · exact percentileR_le 95 hemp (by norm_num) (by norm_num)
        (fun y hy => le_of_lt (h26 y hy))
  unfold pcOf
  exact clipR_le_of_le (by norm_num) (by linarith)

theorem anomalyRaw_lt_half (P : Prep) (curves : List String)
    (h : ∀ c ∈ activeCurves P curves, ∀ s ∈ scoresOf P c, s < thrOf P c) :
    anomalyRaw P curves < 1/2 := by
  have hagree : agreeGlobal P curves = 0 :=
    agreeGlobal_zero P curves (fun c hc => maskOf_all_false P c (h c hc))
  have hmean : meanRD ((activeCurves P curves).map (pcOf P)) 0 ≤ 26/70 := by
    refine meanRD_le (by norm_num) ?_
    intro y hy
    rcases List.mem_map.mp hy with ⟨c, hc, rfl⟩
    exact pcOf_le P c (h c hc)
  unfold anomalyRaw
  rw [hagree]
  have hin : 78/100 * meanRD ((activeCurves P curves).map (pcOf P)) 0
      + 22/100 * ((0:ℚ):ℝ) ≤ 78/100 * (26/70) := by
    rw [Rat.cast_zero, mul_zero, add_zero]
    linarith
  exact lt_of_le_of_lt (clipR_le_of_le (by norm_num) hin) (by norm_num)

theorem bandOf_of_lt_half {v : ℝ} (h : v < 1/2) :
    bandOf v (1/4) (1/2) (3/4) = Band.LOW ∨ bandOf v (1/4) (1/2) (3/4) = Band.MODERATE := by
  unfold bandOf
  rw [if_neg (not_le.mpr (lt_of_lt_of_le h (by norm_num))), if_neg (not_le.mpr h)]
  by_cases h14 : (1/4:ℝ) ≤ v
  · right; rw [if_pos h14]
  · left; rw [if_neg h14]

/-- C5: on 20 distinct-depth rows where no curve's composite anomaly
score reaches its adaptive threshold, the deterministic output has
eventCount = 0 and a severity band of at most MODERATE. -/
theorem C5_no_threshold_crossing (rows : List Row) (curves : List String)
    (from_depth to_depth : ℚ) (well_id : String)
    (hlen : rows.length = 20)
    (hnodup : (rows.map Row.depth).Nodup)
    (hthr : ∀ c ∈ activeCurves (prepare rows curves) curves,
      ∀ s ∈ scoresOf (prepare rows curves) c, s < thrOf (prepare rows curves) c) :
    (analyze rows curves from_depth to_depth well_id).1.eventCount = 0 ∧
    ((analyze rows curves from_depth to_depth well_id).1.severityBand = Band.LOW ∨
     (analyze rows curves from_depth to_depth well_id).1.severityBand = Band.MODERATE) := by
  have hP : (prepare rows curves).depths.length = 20 := by
    rw [prepare_depths_length rows curves hnodup]; exact hlen
  have hbr : analyze rows curves from_depth to_depth well_id
      = mainBundle (prepare rows curves) curves from_depth to_depth well_id := by
    unfold analyze analyzeOnPrep
    rw [if_neg (by omega : ¬ (prepare rows curves).depths.length < 20)]
  have hcons : consolidatedFindings (prepare rows curves) curves = [] :=
    consolidatedFindings_nil _ _ (rankedFindings_nil _ _ hthr)
  have hfields := mainBundle_det_fields (prepare rows curves) curves from_depth to_depth well_id
  constructor
  · rw [hbr, hfields.1, hcons]
    rfl
  · rw [hbr, hfields.2.2.2.2.1]
    exact bandOf_of_lt_half (anomalyRaw_lt_half _ _ hthr)

/-- Twenty rows at integer depths with no curve samples at all. -/
def rows20 : List Row := (List.range 20).map (fun (k : ℕ) => { depth := (k:ℚ), values := [] })

theorem C5_no_threshold_crossing_witness :
    rows20.length = 20 ∧ (rows20.map Row.depth).Nodup ∧
    (analyze rows20 [] 0 100 "W").1.eventCount = 0 ∧
    ((analyze rows20 [] 0 100 "W").1.severityBand = Band.LOW ∨
     (analyze rows20 [] 0 100 "W").1.severityBand = Band.MODERATE) := by
  have hlen : rows20.length = 20 := by
    simp only [rows20, List.length_map, List.length_range]
  have hnodup : (rows20.map Row.depth).Nodup := by
    have he : rows20.map Row.depth = (List.range 20).map (fun k => ((k:ℕ):ℚ)) := by
      simp only [rows20, List.map_map]
      rfl
    rw [he]
    exact List.Nodup.map (fun a b hab => Nat.cast_injective hab) (List.nodup_range 20)
  have hthr : ∀ c ∈ activeCurves (prepare rows20 []) [],
      ∀ s ∈ scoresOf (prepare rows20 []) c, s < thrOf (prepare rows20 []) c := by
    intro c hc
    exact absurd hc (List.not_mem_nil c)
  have h := C5_no_threshold_crossing rows20 [] 0 100 "W" hlen hnodup hthr
  exact ⟨hlen, hnodup, h.1, h.2⟩

end QuietInputLemmas


section OrderLemmas

theorem sortRows_eq_of_perm (rowsA rowsB : List Row)
    (hperm : rowsA.Perm rowsB)
    (hnodupB : (rowsB.map Row.depth).Nodup) :
    sortRows rowsA = sortRows rowsB := by
  haveI : IsAntisymm Row (fun a b => a.depth < b.depth) :=
    ⟨fun a b h1 h2 => absurd (lt_trans h1 h2) (lt_irrefl _)⟩
  have hnodupA : (rowsA.map Row.depth).Nodup :=
    ((hperm.map Row.depth).nodup_iff).mpr hnodupB
  have hsA : List.Pairwise (fun a b : Row => a.depth < b.depth) (sortRows rowsA) :=
    sortRows_pairwise_lt rowsA hnodupA
  have hsB : List.Pairwise (fun a b : Row => a.depth < b.depth) (sortRows rowsB) :=
    sortRows_pairwise_lt rowsB hnodupB
  have hp : (sortRows rowsA).Perm (sortRows rowsB) :=
    ((List.perm_insertionSort _ rowsA).trans hperm).trans
      (List.perm_insertionSort _ rowsB).symm
  exact List.eq_of_perm_of_sorted hp hsA hsB

/-- C6 (amended): analyze is order independent on row multisets whose
depths are pairwise distinct: any permutation of the rows, in particular
an out-of-order input against its depth-sorted version, produces
identical deterministic and insight outputs. With duplicate depths the
keep-first deduplication after the stable sort makes the output depend
on the input order. -/
theorem C6_order_independence_distinct_depths (rowsA rowsB : List Row)
    (curves : List String) (from_depth to_depth : ℚ) (well_id : String)
    (hperm : rowsA.Perm rowsB)
    (hnodup : (rowsB.map Row.depth).Nodup) :
    analyze rowsA curves from_depth to_depth well_id
      = analyze rowsB curves from_depth to_depth well_id := by
  have hs : sortRows rowsA = sortRows rowsB := sortRows_eq_of_perm rowsA rowsB hperm hnodup
  have hprep : prepare rowsA curves = prepare rowsB curves := by
    unfold prepare
    rw [hs]
  unfold analyze
  rw [hprep]

/-- Two rows with distinct depths, listed out of depth order. -/
def rowsDistinctA : List Row := [{ depth := 1, values := [] }, { depth := 0, values := [] }]

/-- The same two rows pre-sorted by depth. -/
def rowsDistinctB : List Row := [{ depth := 0, values := [] }, { depth := 1, values := [] }]

theorem C6_order_independence_distinct_depths_witness :
    rowsDistinctA.Perm rowsDistinctB ∧
    (rowsDistinctB.map Row.depth).Nodup ∧
    analyze rowsDistinctA ["A"] 0 1 "W" = analyze rowsDistinctB ["A"] 0 1 "W" := by
  have hperm : rowsDistinctA.Perm rowsDistinctB := by
    simp only [rowsDistinctA, rowsDistinctB]
    exact List.Perm.swap _ _ _
  have hnodup : (rowsDistinctB.map Row.depth).Nodup := by
    norm_num [rowsDistinctB, List.nodup_cons, List.mem_singleton]
  exact ⟨hperm, hnodup, C6_order_independence_distinct_depths rowsDistinctA rowsDistinctB
    ["A"] 0 1 "W" hperm hnodup⟩

/-- Three rows with a duplicated depth, listed out of depth order. -/
def rowsShuffled : List Row :=
  [{ depth := 1, values := [("A", some 7), ("B", some 1)] },
   { depth := 0, values := [("A", some 1), ("B", some 1)] },
   { depth := 1, values := [("A", some 5), ("B", some 1)] }]

/-- The same three rows pre-sorted by depth (ties reordered). -/
def rowsOrdered : List Row :=
  [{ depth := 0, values := [("A", some 1), ("B", some 1)] },
   { depth := 1, values := [("A", some 5), ("B", some 1)] },
   { depth := 1, values := [("A", some 7), ("B", some 1)] }]

theorem lowDataBundle_balanceBh (P : Prep) (curves : List String)
    (fd td : ℚ) (wid : String) :
    (lowDataBundle P curves fd td wid).2.indices.balanceBh =
      (o2 (fun m1 m2 => (m1 + EPS) / (m2 + EPS))
        (nanmean (match curves[0]? with
          | some c => (P.data.lookup c).getD []
          | none => []))
        (nanmean (match curves[1]? with
          | some c => (P.data.lookup c).getD []
          | none => []))).map (fun v => roundTo v 3) := by
  simp only [lowDataBundle, build_insight]

theorem C6_order_independence_counterexample :
    rowsShuffled.Perm rowsOrdered ∧
    List.Pairwise (fun a b : Row => a.depth ≤ b.depth) rowsOrdered ∧
    analyze rowsShuffled ["A", "B"] 0 1 "W" ≠ analyze rowsOrdered ["A", "B"] 0 1 "W" := by
  have hba : ("B" == "A") = false := by decide
  have hperm : rowsShuffled.Perm rowsOrdered := by
    have h1 : rowsShuffled.Perm
        [{ depth := 0, values := [("A", some 1), ("B", some 1)] },
         { depth := 1, values := [("A", some 7), ("B", some 1)] },
         { depth := 1, values := [("A", some 5), ("B", some 1)] }] := by
      simp only [rowsShuffled]
      exact List.Perm.swap _ _ _
    have h2 : List.Perm
        [{ depth := 0, values := [("A", some 1), ("B", some 1)] },
         { depth := 1, values := [("A", some 7), ("B", some 1)] },
         { depth := 1, values := [("A", some 5), ("B", some 1)] }] rowsOrdered := by
      simp only [rowsOrdered]
      exact List.Perm.cons _ (List.Perm.swap _ _ _)
    exact h1.trans h2
  have hsorted : List.Pairwise (fun a b : Row => a.depth ≤ b.depth) rowsOrdered := by
    norm_num [rowsOrdered, List.pairwise_cons, List.mem_cons, List.mem_singleton]
  have hprepS : prepare rowsShuffled ["A", "B"] =
      { depths := [0, 1],
        data := [("A", [some 1, some 7]), ("B", [some 1, some 1])] } := by
    have hsort : sortRows rowsShuffled =
        [{ depth := 0, values := [("A", some 1), ("B", some 1)] },
         { depth := 1, values := [("A", some 7), ("B", some 1)] },
         { depth := 1, values := [("A", some 5), ("B", some 1)] }] := by
      norm_num [sortRows, rowsShuffled, List.insertionSort, List.orderedInsert]
    have hded : dedupRows (sortRows rowsShuffled) =
        [{ depth := 0, values := [("A", some 1), ("B", some 1)] },
         { depth := 1, values := [("A", some 7), ("B", some 1)] }] := by
      rw [hsort]
      norm_num [dedupRows, dedupAux]
    simp only [prepare, hded]
    norm_num [rowVal, List.lookup, hba]
  have hprepO : prepare rowsOrdered ["A", "B"] =
      { depths := [0, 1],
        data := [("A", [some 1, some 5]), ("B", [some 1, some 1])] } := by
    have hsort : sortRows rowsOrdered = rowsOrdered := by
      norm_num [sortRows, rowsOrdered, List.insertionSort, List.orderedInsert]
    have hded : dedupRows (sortRows rowsOrdered) =
        [{ depth := 0, values := [("A", some 1), ("B", some 1)] },
         { depth := 1, values := [("A", some 5), ("B", some 1)] }] := by
      rw [hsort]
      norm_num [dedupRows, dedupAux, rowsOrdered]
    simp only [prepare, hded]
    norm_num [rowVal, List.lookup, hba]
  have hbalS : (analyze rowsShuffled ["A", "B"] 0 1 "W").2.indices.balanceBh
      = some (roundTo ((4 + EPS) / (1 + EPS)) 3) := by
    have hbr : analyze rowsShuffled ["A", "B"] 0 1 "W"
        = lowDataBundle (prepare rowsShuffled ["A", "B"]) ["A", "B"] 0 1 "W" := by
      unfold analyze analyzeOnPrep
      rw [if_pos (show (prepare rowsShuffled ["A", "B"]).depths.length < 20 by
        rw [hprepS]; norm_num)]
    rw [hbr, lowDataBundle_balanceBh, hprepS]
    norm_num [List.lookup, nanmean, meanQ, finiteVals, List.filterMap_cons, id_eq, o2, hba]
  have hbalO : (analyze rowsOrdered ["A", "B"] 0 1 "W").2.indices.balanceBh
      = some (roundTo ((3 + EPS) / (1 + EPS)) 3) := by
    have hbr : analyze rowsOrdered ["A", "B"] 0 1 "W"
        = lowDataBundle (prepare rowsOrdered ["A", "B"]) ["A", "B"] 0 1 "W" := by
      unfold analyze analyzeOnPrep
      rw [if_pos (show (prepare rowsOrdered ["A", "B"]).depths.length < 20 by
        rw [hprepO]; norm_num)]
    rw [hbr, lowDataBundle_balanceBh, hprepO]
    norm_num [List.lookup, nanmean, meanQ, finiteVals, List.filterMap_cons, id_eq, o2, hba]
  have h4 : roundTo ((4 + EPS) / (1 + EPS)) 3 = 4 := by
    have harg : ((4 + EPS) / (1 + EPS) : ℚ) * 10 ^ 3 = 4000000001000 / 1000000001 := by
      norm_num [EPS]
    have hfl : ⌊(4000000001000 / 1000000001 : ℚ)⌋ = 3999 := by norm_num
    simp only [roundTo, pyRound, harg, hfl]
    norm_num
  have h3 : roundTo ((3 + EPS) / (1 + EPS)) 3 = 3 := by
    have harg : ((3 + EPS) / (1 + EPS) : ℚ) * 10 ^ 3 = 3000000001000 / 1000000001 := by
      norm_num [EPS]
    have hfl : ⌊(3000000001000 / 1000000001 : ℚ)⌋ = 2999 := by norm_num
    simp only [roundTo, pyRound, harg, hfl]
    norm_num
  refine ⟨hperm, hsorted, ?_⟩
  intro heq
  have hb := congrArg (fun p : DetOut × Insight => p.2.indices.balanceBh) heq
  simp only [hbalS, hbalO, h4, h3, Option.some.injEq] at hb
  norm_num at hb

end OrderLemmas


section WetnessLemmas

theorem clipR_eq_self {x lo hi : ℝ} (h1 : lo ≤ x) (h2 : x ≤ hi) : clipR x lo hi = x := by
  unfold clipR
  rw [max_eq_right h1, min_eq_right h2]

/-- The primary-curve array of build_insight (data of the first
caller-ordered curve). -/
def arr1Of (curves : List String) (data : List (String × List (Option ℚ))) :
    List (Option ℚ) :=
  match curves[0]? with
  | some c => (data.lookup c).getD []
  | none => []

/-- The secondary-curve array of build_insight. -/
def arr2Of (curves : List String) (data : List (String × List (Option ℚ))) :
    List (Option ℚ) :=
  match curves[1]? with
  | some c => (data.lookup c).getD []
  | none => []

/-- The primary/secondary correlation computed inside build_insight. -/
noncomputable def corr12Of (curves : List String)
    (data : List (String × List (Option ℚ))) : ℝ :=
  if (arr1Of curves data).length ≠ 0 ∧ (arr2Of curves data).length ≠ 0 then
    safe_corr (arr1Of curves data) (arr2Of curves data) else 0

theorem build_insight_wh (wid : String) (fd td : ℚ) (curves : List String)
    (depths : List ℚ) (data : List (String × List (Option ℚ)))
    (findings : List Finding) (a : ℝ) (dc : ℚ) (s : ℝ) (band : Band) :
    (build_insight wid fd td curves depths data findings a dc s band).indices.wetnessIndexWh
      = roundToR (clipR (45/100 * a + 35/100 * max (corr12Of curves data) 0 + 20/100 * s)
          0 1) 3 := by
  simp only [build_insight, corr12Of, arr1Of, arr2Of]

/-- C9: with the anomaly score and severity confidence held fixed (inside
their attainable ranges), the wetness index of build_insight is strictly
higher for a curve pair whose correlation is at least 0.85 than for one
whose correlation is at most 0.05: the pre-clip combination stays inside
the clip bounds and the 0.35-weighted correlation gap of at least 0.28
survives the 0.0005 rounding slack. -/
theorem C9_wetness_monotone_in_corr (wid : String) (fd td : ℚ)
    (curves : List String) (depths : List ℚ)
    (dataHi dataLo : List (String × List (Option ℚ))) (findings : List Finding)
    (a : ℝ) (dc : ℚ) (s : ℝ) (band : Band)
    (ha0 : 0 ≤ a) (ha1 : a ≤ 1) (hs0 : 1/5 ≤ s) (hs1 : s ≤ 92/100)
    (hcHi0 : 17/20 ≤ corr12Of curves dataHi) (hcHi1 : corr12Of curves dataHi ≤ 1)
    (hcLo : corr12Of curves dataLo ≤ 1/20) :
    (build_insight wid fd td curves depths dataLo findings a dc s band).indices.wetnessIndexWh
      < (build_insight wid fd td curves depths dataHi findings a dc s band).indices.wetnessIndexWh := by
  rw [build_insight_wh, build_insight_wh]
  have hmaxH : max (corr12Of curves dataHi) 0 = corr12Of curves dataHi :=
    max_eq_left (le_trans (by norm_num) hcHi0)
  rw [hmaxH]
  have hL0 : 0 ≤ max (corr12Of curves dataLo) 0 := le_max_right _ _
  have hL1 : max (corr12Of curves dataLo) 0 ≤ 1/20 := max_le hcLo (by norm_num)
  have hCH : clipR (45/100 * a + 35/100 * corr12Of curves dataHi + 20/100 * s) 0 1
      = 45/100 * a + 35/100 * corr12Of curves dataHi + 20/100 * s := by
    refine clipR_eq_self (by nlinarith) (by nlinarith)
  have hCL : clipR (45/100 * a + 35/100 * max (corr12Of curves dataLo) 0 + 20/100 * s) 0 1
      = 45/100 * a + 35/100 * max (corr12Of curves dataLo) 0 + 20/100 * s := by
    refine clipR_eq_self (by nlinarith) (by nlinarith)
  rw [hCH, hCL]
  have hrH := roundToR_sub_abs_le
    (45/100 * a + 35/100 * corr12Of curves dataHi + 20/100 * s) 3
  have hrL := roundToR_sub_abs_le
    (45/100 * a + 35/100 * max (corr12Of curves dataLo) 0 + 20/100 * s) 3
  rw [abs_le] at hrH hrL
  have hpow : ((10:ℝ) ^ (3:ℕ)) = 1000 := by norm_num
  rw [hpow] at hrH hrL
  have hgap : 45/100 * a + 35/100 * max (corr12Of curves dataLo) 0 + 20/100 * s + 28/100
      ≤ 45/100 * a + 35/100 * corr12Of curves dataHi + 20/100 * s := by linarith
  linarith [hrH.1, hrH.2, hrL.1, hrL.2]

/-- Five finite samples used by the correlation witness. -/
def arrH : List (Option ℚ) := [some 1, some 2, some 3, some 4, some 5]

theorem safe_corr_self_arrH : safe_corr arrH arrH = 1 := by
  have hpairs : ((arrH.zip arrH).filterMap (fun pr =>
      match pr with
      | (some x, some y) => some (x, y)
      | _ => none)) = [((1:ℚ),(1:ℚ)),(2,2),(3,3),(4,4),(5,5)] := by
    norm_num [arrH, List.zip_cons_cons, List.filterMap_cons]
  simp only [safe_corr, hpairs]
  have hxs : List.map Prod.fst [((1:ℚ),(1:ℚ)),(2,2),(3,3),(4,4),(5,5)]
      = [(1:ℚ),2,3,4,5] := by norm_num
  have hys : List.map Prod.snd [((1:ℚ),(1:ℚ)),(2,2),(3,3),(4,4),(5,5)]
      = [(1:ℚ),2,3,4,5] := by norm_num
  rw [hxs, hys]
  have hmx : meanQD [(1:ℚ),2,3,4,5] 0 = 3 := by norm_num [meanQD]
  rw [hmx]
  have hsq : List.map (fun v => (v - 3)^2) [(1:ℚ),2,3,4,5] = [4,1,0,1,4] := by norm_num
  rw [hsq]
  have hvx : meanQD [(4:ℚ),1,0,1,4] 0 = 2 := by norm_num [meanQD]
  rw [hvx]
  have hzip : List.zip [(1:ℚ),2,3,4,5] [(1:ℚ),2,3,4,5]
      = [((1:ℚ),(1:ℚ)),(2,2),(3,3),(4,4),(5,5)] := by norm_num [List.zip_cons_cons]
  rw [hzip]
  have hprod : List.map (fun pr => (pr.1 - 3) * (pr.2 - 3))
      [((1:ℚ),(1:ℚ)),(2,2),(3,3),(4,4),(5,5)] = [4,1,0,1,4] := by norm_num
  rw [hprod, hvx]
  have hlen : ¬ ([((1:ℚ),(1:ℚ)),(2,2),(3,3),(4,4),(5,5)].length < 5) := by norm_num
  rw [if_neg hlen]
  have hs2 : ((EPS : ℚ) : ℝ) ≤ Real.sqrt (((2:ℚ) : ℝ)) := by
    have h1 : (1:ℝ) ≤ Real.sqrt (((2:ℚ) : ℝ)) := by
      have h0 := Real.sqrt_le_sqrt (show (1:ℝ) ≤ ((2:ℚ):ℝ) by norm_num)
      rwa [Real.sqrt_one] at h0
    have h2 : ((EPS : ℚ) : ℝ) ≤ 1 := by norm_num [EPS]
    linarith
  have hcond : ¬ (Real.sqrt (((2:ℚ):ℝ)) < ((EPS:ℚ):ℝ) ∨
      Real.sqrt (((2:ℚ):ℝ)) < ((EPS:ℚ):ℝ)) := by
    rintro (h | h) <;> exact absurd h (not_lt.mpr hs2)
  rw [if_neg hcond]
  rw [Real.mul_self_sqrt (by norm_num : (0:ℝ) ≤ ((2:ℚ):ℝ))]
  norm_num

/-- Data giving the primary and secondary curve identical five-sample
arrays (correlation one). -/
def dataCorrHi : List (String × List (Option ℚ)) := [("A", arrH), ("B", arrH)]

/-- Data giving both curves a single joint sample (correlation zero by
the five-sample guard). -/
def dataCorrLo : List (String × List (Option ℚ)) := [("A", [some 1]), ("B", [some 1])]

theorem C9_wetness_monotone_in_corr_witness :
    17/20 ≤ corr12Of ["A", "B"] dataCorrHi ∧ corr12Of ["A", "B"] dataCorrHi ≤ 1 ∧
    corr12Of ["A", "B"] dataCorrLo ≤ 1/20 ∧
    (build_insight "W" 0 1 ["A", "B"] [] dataCorrLo [] (1/2) (1/2) (1/2)
        Band.LOW).indices.wetnessIndexWh
      < (build_insight "W" 0 1 ["A", "B"] [] dataCorrHi [] (1/2) (1/2) (1/2)
        Band.LOW).indices.wetnessIndexWh := by
  have hba : ("B" == "A") = false := by decide
  have harr1 : arr1Of ["A", "B"] dataCorrHi = arrH := by
    norm_num [arr1Of, dataCorrHi, List.lookup]
  have harr2 : arr2Of ["A", "B"] dataCorrHi = arrH := by
    norm_num [arr2Of, dataCorrHi, List.lookup, hba]
  have hHi : corr12Of ["A", "B"] dataCorrHi = 1 := by
    unfold corr12Of
    rw [harr1, harr2, if_pos ⟨by norm_num [arrH], by norm_num [arrH]⟩, safe_corr_self_arrH]
  have harr1L : arr1Of ["A", "B"] dataCorrLo = [some 1] := by
    norm_num [arr1Of, dataCorrLo, List.lookup]
  have harr2L : arr2Of ["A", "B"] dataCorrLo = [some 1] := by
    norm_num [arr2Of, dataCorrLo, List.lookup, hba]
  have hLo : corr12Of ["A", "B"] dataCorrLo = 0 := by
    unfold corr12Of
    rw [harr1L, harr2L, if_pos ⟨by norm_num, by norm_num⟩]
    norm_num [safe_corr, List.zip_cons_cons, List.filterMap_cons]
  refine ⟨by rw [hHi]; norm_num, by rw [hHi], by rw [hLo]; norm_num, ?_⟩
  exact C9_wetness_monotone_in_corr "W" 0 1 ["A", "B"] [] dataCorrHi dataCorrLo []
    (1/2) (1/2) (1/2) Band.LOW (by norm_num) (by norm_num) (by norm_num) (by norm_num)
    (by rw [hHi]; norm_num) (by rw [hHi]) (by rw [hLo]; norm_num)

end WetnessLemmas


section ZeroDivisionPath

/-- The state under which the source's balance-ratio division raises:
both curve means are finite, so bh is computed, and the denominator
mean2 + EPS is exactly zero, i.e. the secondary mean is exactly -EPS.
Translated from bh = float((mean1 + EPS) / (mean2 + EPS)) guarded by
np.isfinite(mean1) and np.isfinite(mean2) in build_insight. -/
def balanceDenominatorZero (curves : List String)
    (data : List (String × List (Option ℚ))) : Bool :=
  match nanmean (arr1Of curves data), nanmean (arr2Of curves data) with
  | some _, some m2 => decide (m2 + EPS = 0)
  | _, _ => false

/-- analyze raises ZeroDivisionError exactly when build_insight's
balance-ratio denominator is zero: both branches of analyze call
build_insight with the prepared data and the caller's curve list, and
no other pure-Python division in the call tree has a denominator that
can vanish. -/
def analyzeRaisesZeroDiv (rows : List Row) (curves : List String) : Bool :=
  balanceDenominatorZero curves (prepare rows curves).data

/-- One surviving row whose secondary curve holds exactly -EPS. -/
def rowsDivZero : List Row :=
  [{ depth := 0, values := [("A", some 1), ("B", some (-EPS))] }]

/-- C4: the insufficient-data short circuit is not exception free. On
this one-row input fewer than 20 rows survive preparation, both curve
means are finite, and the balance-ratio denominator mean2 + EPS inside
build_insight is exactly zero, so the source's float division raises
ZeroDivisionError instead of returning the documented bundle. The
bundle fields themselves are as documented whenever the division does
not raise (lowData_branch_fields). -/
theorem C4_insufficient_rows_divzero :
    (prepare rowsDivZero ["A", "B"]).depths.length < 20 ∧
    analyzeRaisesZeroDiv rowsDivZero ["A", "B"] = true := by
  have hba : ("B" == "A") = false := by decide
  have hprep : prepare rowsDivZero ["A", "B"] =
      { depths := [0], data := [("A", [some 1]), ("B", [some (-EPS)])] } := by
    have hsort : sortRows rowsDivZero = rowsDivZero := by
      norm_num [sortRows, rowsDivZero, List.insertionSort, List.orderedInsert]
    have hded : dedupRows (sortRows rowsDivZero) = rowsDivZero := by
      rw [hsort]
      norm_num [dedupRows, dedupAux, rowsDivZero]
    simp only [prepare, hded]
    norm_num [rowsDivZero, rowVal, List.lookup, hba]
  have hdata : (prepare rowsDivZero ["A", "B"]).data
      = [("A", [some 1]), ("B", [some (-EPS)])] := by rw [hprep]
  constructor
  · rw [hprep]
    norm_num
  · unfold analyzeRaisesZeroDiv balanceDenominatorZero
    rw [hdata]
    have h1 : arr1Of ["A", "B"] [("A", [some 1]), ("B", [some (-EPS)])] = [some 1] := by
      norm_num [arr1Of, List.lookup]
    have h2 : arr2Of ["A", "B"] [("A", [some 1]), ("B", [some (-EPS)])]
        = [some (-EPS)] := by
      norm_num [arr2Of, List.lookup, hba]
    rw [h1, h2]
    have hm1 : nanmean [some (1:ℚ)] = some 1 := by
      norm_num [nanmean, meanQ, finiteVals, List.filterMap_cons, id_eq]
    have hm2 : nanmean [some (-EPS)] = some (-EPS) := by
      norm_num [nanmean, meanQ, finiteVals, List.filterMap_cons, id_eq]
    rw [hm1, hm2]
    norm_num

end ZeroDivisionPath

end WellLog
